import Mathlib

/-!
Shallow embedding of the crushify image-conversion engine
(ImageProcessor in main.mjs) and proofs about its claims.

Modelling conventions:
- JS strings are Lean Strings; where structural reasoning is needed we work
  on the underlying character lists (String.data).
- JS objects used as option maps are association lists in insertion order;
  object-literal construction and spread are modelled by setKey/mergeSpread,
  which reproduce the replace-in-place / append-at-end key ordering of JS.
- JSON.stringify of an option map is modelled by serializeOpts, which emits
  entries in insertion order (the JS behaviour for string keys).
- Filesystem and the sharp codec are external collaborators; they are
  modelled by a static oracle (Env) mapping paths to outcomes, and every
  filesystem/codec interaction is recorded as an IOEvent in order.
- Date.now() is modelled by a logical clock: ProcState.tick is the value
  returned by the next call, incremented on each call.  EventEmitter.emit
  is synchronous in Node, so the handlers run inline.
- Number.prototype.toFixed(1) is modelled by exact rounding to the nearest
  tenth with ties toward positive infinity (the ECMA-262 rule); the binary
  double representation of the quotient is not modelled, which only matters
  on ties that no claim exercises.
-/

namespace Crushify

/-- A primitive JS value appearing in option objects. -/
inductive OValue where
  | str : String → OValue
  | num : Int → OValue
  | bool : Bool → OValue
deriving DecidableEq, Repr

/-- An option object: association list of entries in insertion order. -/
abbrev OptionsMap := List (String × OValue)

/-- JS truthiness of an option value. -/
def truthy : OValue → Bool
  | .bool b => b
  | .num n => n != 0
  | .str s => s != ""

/-- Property read on an option object. -/
def lookupOpt (m : OptionsMap) (k : String) : Option OValue :=
  (m.find? (fun p => p.1 = k)).map Prod.snd

/-- Whether a key is present in an option object. -/
def hasKey (m : OptionsMap) (k : String) : Bool :=
  m.any (fun p => p.1 = k)

/-- Assignment of one property, as in JS object construction: replaces the
value in place when the key exists, otherwise appends the entry at the end. -/
def setKey (m : OptionsMap) (k : String) (v : OValue) : OptionsMap :=
  if hasKey m k then m.map (fun p => if p.1 = k then (k, v) else p)
  else m ++ [(k, v)]

/-- JS object spread: fold the right object entries into the left object. -/
def mergeSpread (a b : OptionsMap) : OptionsMap :=
  b.foldl (fun acc p => setKey acc p.1 p.2) a

/- Path helpers modelling the node:path functions used by main.mjs.
Directory entries never contain a separator and no path in the claims
ends in a separator, so trailing-separator normalisation is not modelled. -/

/-- Characters after the last path separator (path.basename). -/
def basenameChars (l : List Char) : List Char :=
  (l.reverse.takeWhile (fun c => c ≠ '/')).reverse

/-- The extension of a basename per path.extname: from the last dot to the
end, empty when there is no dot or the only relevant dot is the leading
character of the basename. -/
def extnameChars (b : List Char) : List Char :=
  let r := b.reverse
  let pre := r.takeWhile (fun c => c ≠ '.')
  if pre.length = r.length then []
  else if pre.length + 1 = r.length then []
  else '.' :: pre.reverse

/-- path.extname on a full path. -/
def extname (s : String) : String :=
  ⟨extnameChars (basenameChars s.data)⟩

/-- The basename with its extension removed:
path.basename(file, path.extname(file)). -/
def basenameNoExtChars (l : List Char) : List Char :=
  let b := basenameChars l
  b.take (b.length - (extnameChars b).length)

/-- path.dirname. -/
def dirnameChars (l : List Char) : List Char :=
  let pre := l.reverse.dropWhile (fun c => c ≠ '/')
  match pre with
  | [] => ['.']
  | _ :: rest => if rest.isEmpty then ['/'] else rest.reverse

/-- path.join of a directory and an entry name. -/
def pathJoin (a b : String) : String := a ++ "/" ++ b

/-- Lower-casing of a character list (String.prototype.toLowerCase over the
ASCII extensions used here). -/
def lowerChars (l : List Char) : List Char := l.map Char.toLower

/-- String.prototype.toLowerCase. -/
def toLowerStr (s : String) : String := ⟨lowerChars s.data⟩

/- JSON.stringify of an option object, emitted on character lists so that
cache-key equalities can be reasoned about structurally. -/

/-- Serialization of a primitive value (none of the values appearing in the
engine contain characters needing JSON escapes). -/
def serializeVal : OValue → List Char
  | .str s => '"' :: (s.data ++ ['"'])
  | .num n => (toString n).data
  | .bool b => (if b then "true" else "false").data

/-- One serialized key/value entry. -/
def serializeEntry (k : String) (v : OValue) : List Char :=
  '"' :: (k.data ++ '"' :: ':' :: serializeVal v)

/-- Comma-separated serialized entries, in insertion order. -/
def serializeEntries : OptionsMap → List Char
  | [] => []
  | [(k, v)] => serializeEntry k v
  | (k, v) :: p :: rest => serializeEntry k v ++ ',' :: serializeEntries (p :: rest)

/-- JSON.stringify of an option object. -/
def serializeOpts (m : OptionsMap) : List Char :=
  '\x7b' :: (serializeEntries m ++ ['\x7d'])

/-- The cache key of #processImage:
filePath concatenated with a colon and JSON.stringify(options). -/
def mkCacheKey (filePath : String) (options : OptionsMap) : List Char :=
  filePath.data ++ ':' :: serializeOpts options

/-- One entry of the static format registry (#FORMAT_MAPPINGS). -/
structure FormatConfig where
  supportedInputs : List String
  defaultQuality : Int
  extension : String
  options : OptionsMap
deriving DecidableEq, Repr

/-- The jpeg registry entry. -/
def jpegConfig : FormatConfig :=
  { supportedInputs := [".jpg", ".jpeg", ".png", ".webp", ".tiff", ".avif", ".gif", ".svg"]
    defaultQuality := 80
    extension := ".jpg"
    options := [("progressive", .bool true), ("chromaSubsampling", .str "4:4:4"),
                ("mozjpeg", .bool true)] }

/-- The png registry entry. -/
def pngConfig : FormatConfig :=
  { supportedInputs := [".jpg", ".jpeg", ".webp", ".tiff", ".avif", ".gif", ".svg"]
    defaultQuality := 100
    extension := ".png"
    options := [("compressionLevel", .num 6), ("palette", .bool true)] }

/-- The webp registry entry. -/
def webpConfig : FormatConfig :=
  { supportedInputs := [".jpg", ".jpeg", ".png", ".tiff", ".avif", ".gif", ".svg"]
    defaultQuality := 80
    extension := ".webp"
    options := [("lossless", .bool false), ("effort", .num 4),
                ("nearLossless", .bool false), ("alphaQuality", .num 100)] }

/-- The avif registry entry. -/
def avifConfig : FormatConfig :=
  { supportedInputs := [".jpg", ".jpeg", ".png", ".webp", ".tiff", ".gif", ".svg"]
    defaultQuality := 65
    extension := ".avif"
    options := [("effort", .num 4), ("chromaSubsampling", .str "4:4:4"),
                ("lossless", .bool false)] }

/-- The tiff registry entry. -/
def tiffConfig : FormatConfig :=
  { supportedInputs := [".jpg", ".jpeg", ".png", ".webp", ".avif", ".gif", ".svg"]
    defaultQuality := 100
    extension := ".tiff"
    options := [("compression", .str "lzw"), ("quality", .num 100),
                ("pyramid", .bool false), ("tile", .bool false)] }

/-- The gif registry entry. -/
def gifConfig : FormatConfig :=
  { supportedInputs := [".jpg", ".jpeg", ".png", ".webp", ".tiff", ".avif", ".svg"]
    defaultQuality := 100
    extension := ".gif"
    options := [("colours", .num 256), ("dither", .num 1)] }

/-- The svg registry entry. -/
def svgConfig : FormatConfig :=
  { supportedInputs := [".jpg", ".jpeg", ".png", ".webp", ".tiff", ".avif", ".gif"]
    defaultQuality := 100
    extension := ".svg"
    options := [("density", .num 300)] }

/-- The static format registry #FORMAT_MAPPINGS, in source order. -/
def FORMAT_MAPPINGS : List (String × FormatConfig) :=
  [("jpeg", jpegConfig), ("png", pngConfig), ("webp", webpConfig),
   ("avif", avifConfig), ("tiff", tiffConfig), ("gif", gifConfig),
   ("svg", svgConfig)]

/-- Property lookup on the registry object. -/
def lookupFmt (name : String) : Option FormatConfig :=
  (FORMAT_MAPPINGS.find? (fun p => p.1 = name)).map Prod.snd

/- Numeric string formatting used by #generateResult. -/

/-- Floor of n / d + 1/2: the rounding performed by toFixed (ECMA-262 picks
the larger candidate on ties, which is rounding toward positive infinity). -/
def roundDiv (n : Int) (d : Nat) : Int :=
  Int.fdiv (2 * n + d) (2 * d)

/-- Rendering of a non-negative tenths value with exactly one decimal,
as produced by toFixed(1) on a non-negative number. -/
def jsToFixed1Nonneg (t : Int) : String :=
  toString (t.toNat / 10) ++ "." ++ toString (t.toNat % 10)

/-- Default JS number-to-string rendering of the absolute value of a tenths
quantity: an integer value prints without any decimal part, so a trailing
dot-zero is dropped. -/
def jsAbsNumStr (t : Int) : String :=
  let n := t.natAbs
  if n % 10 = 0 then toString (n / 10)
  else toString (n / 10) ++ "." ++ toString (n % 10)

/-- Two-digit zero-padded rendering of a value below 100. -/
def pad2 (n : Nat) : String :=
  if n < 10 then "0" ++ toString n else toString n

/-- Rendering of (n / 1024).toFixed(2), used for the kibibyte sizes in the
result message. -/
def fixed2KB (n : Nat) : String :=
  let t := (roundDiv ((n : Int) * 100) 1024).toNat
  toString (t / 100) ++ "." ++ pad2 (t % 100)

/-- Statistics block of a successful conversion result. -/
structure ConvStats where
  inputSize : Nat
  outputSize : Nat
  savedSize : Int
  savingPercent : String
deriving DecidableEq, Repr

/-- A ProcessingResult value. -/
structure ConversionResult where
  success : Bool
  message : String
  stats : Option ConvStats
  error : Option String
deriving DecidableEq, Repr

/-- The message built by #formatResultMessage; the percentage placed in the
message goes through Math.abs, which coerces the toFixed string back to a
number, so it uses default number rendering. -/
def formatResultMessage (fileName : String) (inputSize outputSize : Nat)
    (t : Int) : String :=
  (if outputSize > inputSize then "⚠️ Size increased" else "✅ Size reduced")
    ++ " - " ++ fileName
    ++ "\n    Original: " ++ fixed2KB inputSize ++ "KB"
    ++ "\n    New: " ++ fixed2KB outputSize ++ "KB"
    ++ "\n    Change: " ++ (if outputSize > inputSize then "+" else "-")
    ++ jsAbsNumStr t ++ "%"

/-- #generateResult: exact size delta, percentage string and message.
The code first renders savingPercent = ((savedSize/inputSize)*100).toFixed(1)
and then, when the file grew (savedSize below zero), re-prefixes the value as
a plus sign followed by Math.abs of that string coerced to a number; when the
file did not grow it prefixes a minus sign to the toFixed rendering. -/
def generateResult (filePath : String) (inputSize outputSize : Nat) :
    ConversionResult :=
  let savedSize : Int := (inputSize : Int) - (outputSize : Int)
  let t : Int := roundDiv (savedSize * 1000) inputSize
  let fileName : String := ⟨basenameChars filePath.data⟩
  { success := true
    message := formatResultMessage fileName inputSize outputSize t
    stats := some
      { inputSize := inputSize
        outputSize := outputSize
        savedSize := savedSize
        savingPercent :=
          if savedSize < 0 then "+" ++ jsAbsNumStr t
          else "-" ++ jsToFixed1Nonneg t }
    error := none }

/-- The error wrapper #enhanceError: prefixes the failing path. -/
def enhanceError (msg filePath : String) : String :=
  "Processing failed for " ++ filePath ++ ": " ++ msg

/-- One recorded filesystem or codec interaction, in order of occurrence. -/
inductive IOEvent where
  | access : String → IOEvent
  | statFile : String → IOEvent
  | mkdir : String → IOEvent
  | readdir : String → IOEvent
  | encode : String → String → IOEvent
  | statOut : String → IOEvent
  | unlink : String → IOEvent
deriving DecidableEq, Repr

/-- Static oracle for the external collaborators (filesystem and the sharp
codec): what each interaction would return for a given path.  Directory
creation (fs.mkdir with recursive true) is not given an outcome here, so
the operations over Env model runs in which every directory creation
succeeds; EnvM below extends this oracle with a fallible mkdir, and
processFileM is the corresponding full model of processFile. -/
structure Env where
  fileInfo : String → Except String Nat
  encodeFail : String → String → Option String
  outputSize : String → Nat
  unlinkErr : String → Option String
  readdir : String → List String

/-- The mutable state of one ImageProcessor instance: the private stats
record, the private cache map (keyed by the serialized cache key) and the
logical clock backing Date.now(). -/
structure ProcState where
  processed : Nat
  failed : Nat
  skipped : Nat
  totalSaved : Int
  startTime : Option Nat
  endTime : Option Nat
  cache : List (List Char × ConversionResult)
  tick : Nat
deriving DecidableEq, Repr

/-- A freshly constructed processor. -/
def initState : ProcState :=
  { processed := 0, failed := 0, skipped := 0, totalSaved := 0,
    startTime := none, endTime := none, cache := [], tick := 0 }

/-- Map.prototype.get composed with Map.prototype.has. -/
def cacheFind (cache : List (List Char × ConversionResult)) (k : List Char) :
    Option ConversionResult :=
  (cache.find? (fun p => p.1 = k)).map Prod.snd

/-- Map.prototype.set: replace in place or append. -/
def cacheSet (cache : List (List Char × ConversionResult)) (k : List Char)
    (v : ConversionResult) : List (List Char × ConversionResult) :=
  if cache.any (fun p => p.1 = k) then
    cache.map (fun p => if p.1 = k then (k, v) else p)
  else cache ++ [(k, v)]

/-- The processing:start handler: startTime := Date.now(). -/
def emitStart (st : ProcState) : ProcState :=
  { st with startTime := some st.tick, tick := st.tick + 1 }

/-- The processing:complete handler: endTime := Date.now(). -/
def emitComplete (st : ProcState) : ProcState :=
  { st with endTime := some st.tick, tick := st.tick + 1 }

/-- The success bookkeeping at the end of #processImage: cache the result,
increment processed and accumulate totalSaved. -/
def commit (st : ProcState) (key : List Char) (r : ConversionResult) :
    ProcState :=
  { st with cache := cacheSet st.cache key r
            processed := st.processed + 1
            totalSaved := st.totalSaved + ((r.stats.map (·.savedSize)).getD 0) }

/-- Outcome of one #processImage call: next state, interactions performed and
the returned result or thrown error. -/
structure ImageOutcome where
  state : ProcState
  events : List IOEvent
  result : Except String ConversionResult
deriving Repr

/-- #processImage: validate the input file, stat it, consult the cache, and
on a miss run the codec, stat the output, optionally delete the original,
then commit.  Any failure inside is caught: failed is incremented and the
enhanced error is rethrown. -/
def processImage (env : Env) (st : ProcState) (filePath outputPath : String)
    (options : OptionsMap) : ImageOutcome :=
  match env.fileInfo filePath with
  | .error m =>
    { state := { st with failed := st.failed + 1 }
      events := [.access filePath, .statFile filePath]
      result := .error (enhanceError ("Invalid file path: " ++ m) filePath) }
  | .ok inputSize =>
    let ev0 : List IOEvent := [.access filePath, .statFile filePath, .statFile filePath]
    let key := mkCacheKey filePath options
    match cacheFind st.cache key with
    | some r =>
      { state := { st with skipped := st.skipped + 1 }
        events := ev0
        result := .ok r }
    | none =>
      match env.encodeFail filePath outputPath with
      | some m =>
        { state := { st with failed := st.failed + 1 }
          events := ev0 ++ [.encode filePath outputPath]
          result := .error (enhanceError m filePath) }
      | none =>
        let outputSize := env.outputSize outputPath
        let ev1 := ev0 ++ [.encode filePath outputPath, .statOut outputPath]
        let result := generateResult filePath inputSize outputSize
        if ((lookupOpt options "remove").map truthy).getD false then
          match env.unlinkErr filePath with
          | some m =>
            { state := { st with failed := st.failed + 1 }
              events := ev1 ++ [.unlink filePath]
              result := .error (enhanceError m filePath) }
          | none =>
            { state := commit st key result
              events := ev1 ++ [.unlink filePath]
              result := .ok result }
        else
          { state := commit st key result
            events := ev1
            result := .ok result }

/-- #validateFormat: resolve the registry entry for the lower-cased target
format and check that the lower-cased input extension is accepted. -/
def validateFormat (inputPath format : String) : Except String FormatConfig :=
  let inputExt := toLowerStr (extname inputPath)
  match lookupFmt (toLowerStr format) with
  | none => .error ("Unsupported output format: " ++ format)
  | some cfg =>
    if cfg.supportedInputs.contains inputExt then .ok cfg
    else .error ("Cannot convert " ++ inputExt ++ " to " ++ format
      ++ ". Supported input formats: "
      ++ String.intercalate ", " cfg.supportedInputs)

/-- The option merge performed by processFile: format defaults, then the
default quality, then the format name, then caller overrides. -/
def mergedOptions (cfg : FormatConfig) (format : String)
    (processingOptions : OptionsMap) : OptionsMap :=
  mergeSpread
    (setKey (setKey cfg.options "quality" (.num cfg.defaultQuality))
      "format" (.str format))
    processingOptions

/-- Outcome of one processFile call. -/
structure FileOutcome where
  state : ProcState
  events : List IOEvent
  result : Except String ConversionResult
deriving Repr

/-- processFile: emit processing:start, validate the format, resolve the
output path, ensure its directory, merge options and run #processImage;
emit processing:complete only on success.  The awaited fs.mkdir is
modelled here as succeeding (its event is recorded unconditionally), i.e.
this is the restriction of processFileM below to environments whose
directory creations succeed (lemma processFileM_mkdir_ok). -/
def processFile (env : Env) (st : ProcState) (input : String)
    (outputArg : Option String) (format : String)
    (processingOptions : OptionsMap) : FileOutcome :=
  let st1 := emitStart st
  match validateFormat input format with
  | .error m => { state := st1, events := [], result := .error m }
  | .ok cfg =>
    let output := outputArg.getD
      (pathJoin ⟨dirnameChars input.data⟩
        (⟨basenameNoExtChars input.data⟩ ++ cfg.extension))
    let merged := mergedOptions cfg format processingOptions
    let o := processImage env st1 input output merged
    match o.result with
    | .ok res =>
      { state := emitComplete o.state
        events := .mkdir ⟨dirnameChars output.data⟩ :: o.events
        result := .ok res }
    | .error e =>
      { state := o.state
        events := .mkdir ⟨dirnameChars output.data⟩ :: o.events
        result := .error e }

/-- One recorded invocation of the folder progress callback. -/
structure ProgressCall where
  file : String
  progress : ℚ
  result : ConversionResult
deriving DecidableEq, Repr

/-- Result of the per-file loop inside processFolder. -/
structure LoopOut where
  state : ProcState
  events : List IOEvent
  progress : List ProgressCall
  results : List ConversionResult
deriving Repr

/-- The ConversionResult pushed when a file of a batch fails. -/
def failureResult (e : String) : ConversionResult :=
  { success := false, message := e, stats := none, error := some e }

/-- The input path of a batch entry: path.join(folder, file). -/
def fileInput (folder f : String) : String := pathJoin folder f

/-- The output path of a batch entry: path.join(dest, basename plus the
target extension). -/
def fileOutput (dest : String) (cfg : FormatConfig) (f : String) : String :=
  pathJoin dest (⟨basenameNoExtChars f.data⟩ ++ cfg.extension)

/-- The for-loop of processFolder: per eligible file invoke processFile; on
success push the result and report progress (when a callback was supplied);
on failure push a failure result and continue with the next file. -/
def folderLoop (env : Env) (folder dest format : String) (cfg : FormatConfig)
    (procOpts : OptionsMap) (hasCallback : Bool) (total : Nat) :
    ProcState → List String → Nat → LoopOut
  | st, [], _ => { state := st, events := [], progress := [], results := [] }
  | st, f :: rest, index =>
    let input := fileInput folder f
    let output := fileOutput dest cfg f
    let o := processFile env st input (some output) format procOpts
    match o.result with
    | .ok res =>
      let pcs : List ProgressCall :=
        if hasCallback then
          [{ file := f, progress := ((index + 1 : ℚ) / total) * 100, result := res }]
        else []
      let t := folderLoop env folder dest format cfg procOpts hasCallback total
        o.state rest (index + 1)
      { state := t.state, events := o.events ++ t.events,
        progress := pcs ++ t.progress, results := res :: t.results }
    | .error e =>
      let t := folderLoop env folder dest format cfg procOpts hasCallback total
        o.state rest (index + 1)
      { state := t.state, events := o.events ++ t.events,
        progress := t.progress, results := failureResult e :: t.results }

/-- Outcome of one processFolder call. -/
structure FolderOutcome where
  state : ProcState
  events : List IOEvent
  progress : List ProgressCall
  result : Except String (List ConversionResult)
deriving Repr

/-- The directory entries of the source folder whose lower-cased extension is
accepted by the target format. -/
def eligibleFiles (env : Env) (folder : String) (cfg : FormatConfig) :
    List String :=
  (env.readdir folder).filter
    (fun f => cfg.supportedInputs.contains (toLowerStr (extname f)))

/-- processFolder: resolve the format (aborting before any interaction when
unknown), emit processing:start, create the destination, list and filter the
folder, run the loop, emit processing:complete and return all results. -/
def processFolder (env : Env) (st : ProcState) (folder dest format : String)
    (procOpts : OptionsMap) (hasCallback : Bool) : FolderOutcome :=
  match lookupFmt (toLowerStr format) with
  | none =>
    { state := st, events := [], progress := []
      result := .error ("Unsupported format: " ++ format) }
  | some cfg =>
    let st1 := emitStart st
    let imageFiles := eligibleFiles env folder cfg
    let lo := folderLoop env folder dest format cfg procOpts hasCallback
      imageFiles.length st1 imageFiles 0
    { state := emitComplete lo.state
      events := .mkdir dest :: .readdir folder :: lo.events
      progress := lo.progress
      result := .ok lo.results }

/-- Whether an Except value is a success, as a decidable Bool. -/
def isOkB : Except String Nat → Bool
  | .ok _ => true
  | .error _ => false

/-- Whether the codec would fail on one batch entry. -/
def encodeFails (env : Env) (folder dest : String) (cfg : FormatConfig)
    (f : String) : Bool :=
  (env.encodeFail (fileInput folder f) (fileOutput dest cfg f)).isSome

/-- The cache key a batch entry is stored under. -/
def batchKey (folder : String) (cfg : FormatConfig) (format : String)
    (procOpts : OptionsMap) (f : String) : List Char :=
  mkCacheKey (fileInput folder f) (mergedOptions cfg format procOpts)

/-- Whether the merged options request deletion of the original. -/
def removeRequested (m : OptionsMap) : Bool :=
  ((lookupOpt m "remove").map truthy).getD false

/-- The characters of the first serialized key of a serialized option object:
skip the opening brace and quote, then read until the closing quote. -/
def extractKey (cs : List Char) : List Char :=
  (cs.drop 2).takeWhile (fun c => c ≠ '"')

/-- Following the words of the spec only (not the source), for comparison
with generateResult: savingPercent is the absolute saved size over the input
size times 100, rounded to one decimal and rendered with exactly one decimal
digit, prefixed with a plus sign when the file grew and a minus sign when it
shrank. -/
def specSavingPercent (inputSize outputSize : Nat) : String :=
  let saved : Int := (inputSize : Int) - (outputSize : Int)
  let t : Int := roundDiv ((saved.natAbs : Int) * 1000) inputSize
  (if (inputSize : Int) < (outputSize : Int) then "+" else "-")
    ++ toString (t.toNat / 10) ++ "." ++ toString (t.toNat % 10)

/- Concrete environments used by counterexamples and witnesses. -/

/-- A folder of three eligible png files (one of which the codec rejects)
plus one ineligible text file. -/
def envBatch : Env :=
  { fileInfo := fun p =>
      if p = "in/a.png" ∨ p = "in/bad.png" ∨ p = "in/c.png" then .ok 1000
      else .error "ENOENT"
    encodeFail := fun i _ => if i = "in/bad.png" then some "premature end of data" else none
    outputSize := fun _ => 400
    unlinkErr := fun _ => none
    readdir := fun d => if d = "in" then ["a.png", "bad.png", "c.png", "notes.txt"] else [] }

/-- A folder of two eligible png files that both convert cleanly. -/
def envTwo : Env :=
  { fileInfo := fun p =>
      if p = "in/a.png" ∨ p = "in/b.png" then .ok 1000 else .error "ENOENT"
    encodeFail := fun _ _ => none
    outputSize := fun _ => 400
    unlinkErr := fun _ => none
    readdir := fun d => if d = "in" then ["a.png", "b.png"] else [] }

/-- A single readable input file whose conversion succeeds but whose
deletion would fail. -/
def envSingle : Env :=
  { fileInfo := fun p => if p = "in/a.png" then .ok 1000 else .error "ENOENT"
    encodeFail := fun _ _ => none
    outputSize := fun _ => 400
    unlinkErr := fun _ => some "EPERM: operation not permitted"
    readdir := fun _ => [] }

/-- Caller options used by the insertion-order counterexample. -/
def optsColoursFirst : OptionsMap := [("colours", .num 2), ("dither", .num 0)]

/-- The same key/value pairs in the opposite insertion order. -/
def optsDitherFirst : OptionsMap := [("dither", .num 0), ("colours", .num 2)]

/-- The environment extended with an outcome for directory creation: some
error message when fs.mkdir of that directory fails, none when it succeeds
(a recursive mkdir of an existing directory succeeds). -/
structure EnvM extends Env where
  mkdirErr : String → Option String

/-- The full model of processFile, with the fallible awaited fs.mkdir of
the source: emit processing:start, validate the format, resolve the output
path, attempt to create its directory — a failure there propagates through
the outer catch of processFile WITHOUT touching the failed counter, since
only the catch inside #processImage increments it — then merge options and
run #processImage; processing:complete is emitted only on success.
processFile above is this function restricted to environments whose
directory creations succeed (lemma processFileM_mkdir_ok). -/
def processFileM (env : EnvM) (st : ProcState) (input : String)
    (outputArg : Option String) (format : String)
    (processingOptions : OptionsMap) : FileOutcome :=
  let st1 := emitStart st
  match validateFormat input format with
  | .error m => { state := st1, events := [], result := .error m }
  | .ok cfg =>
    let output := outputArg.getD
      (pathJoin ⟨dirnameChars input.data⟩
        (⟨basenameNoExtChars input.data⟩ ++ cfg.extension))
    match env.mkdirErr ⟨dirnameChars output.data⟩ with
    | some m =>
      { state := st1
        events := [.mkdir ⟨dirnameChars output.data⟩]
        result := .error m }
    | none =>
      let merged := mergedOptions cfg format processingOptions
      let o := processImage env.toEnv st1 input output merged
      match o.result with
      | .ok res =>
        { state := emitComplete o.state
          events := .mkdir ⟨dirnameChars output.data⟩ :: o.events
          result := .ok res }
      | .error e =>
        { state := o.state
          events := .mkdir ⟨dirnameChars output.data⟩ :: o.events
          result := .error e }

/-- The single-file environment extended with a directory on which mkdir
fails. -/
def envSingleM : EnvM :=
  { toEnv := envSingle
    mkdirErr := fun d =>
      if d = "denied" then some "EACCES: permission denied" else none }

/- Helper lemmas about lists, paths, keys and option maps. -/

theorem takeWhile_append_stop (p : Char → Bool) (l : List Char) (x : Char)
    (r : List Char) (hl : ∀ c ∈ l, p c = true) (hx : p x = false) :
    (l ++ x :: r).takeWhile p = l := by
  induction l with
  | nil => simp [List.takeWhile_cons, hx]
  | cons a l ih =>
    have ha : p a = true := hl a (by simp)
    simp only [List.cons_append, List.takeWhile_cons, ha, if_true]
    rw [ih (fun c hc => hl c (by simp [hc]))]

theorem takeWhile_all (p : Char → Bool) (l : List Char)
    (hl : ∀ c ∈ l, p c = true) : l.takeWhile p = l := by
  induction l with
  | nil => simp
  | cons a l ih =>
    have ha : p a = true := hl a (by simp)
    simp only [List.takeWhile_cons, ha, if_true]
    rw [ih (fun c hc => hl c (by simp [hc]))]

theorem basenameChars_no_sep (l : List Char) (h : ('/' : Char) ∉ l) :
    basenameChars l = l := by
  unfold basenameChars
  rw [takeWhile_all, List.reverse_reverse]
  intro c hc
  rw [List.mem_reverse] at hc
  simp only [decide_eq_true_eq]
  exact fun hceq => h (hceq ▸ hc)

theorem basenameChars_append_sep (l1 l2 : List Char) (h : ('/' : Char) ∉ l2) :
    basenameChars (l1 ++ '/' :: l2) = l2 := by
  unfold basenameChars
  rw [List.reverse_append, List.reverse_cons, List.append_assoc,
    List.singleton_append,
    takeWhile_append_stop _ _ _ _ ?_ (by decide), List.reverse_reverse]
  intro c hc
  rw [List.mem_reverse] at hc
  simp only [decide_eq_true_eq]
  exact fun hceq => h (hceq ▸ hc)

theorem pathJoin_data (a b : String) :
    (pathJoin a b).data = a.data ++ '/' :: b.data := by
  simp [pathJoin, String.data_append]

theorem extname_pathJoin (d f : String) (h : ('/' : Char) ∉ f.data) :
    extname (pathJoin d f) = extname f := by
  unfold extname
  rw [pathJoin_data, basenameChars_append_sep _ _ h, basenameChars_no_sep _ h]

theorem mkCacheKey_opts_eq (p : String) (m1 m2 : OptionsMap)
    (h : mkCacheKey p m1 = mkCacheKey p m2) :
    serializeOpts m1 = serializeOpts m2 := by
  unfold mkCacheKey at h
  have h2 := List.append_cancel_left h
  simpa using h2

theorem mkCacheKey_path_eq (p1 p2 : String) (m : OptionsMap)
    (h : mkCacheKey p1 m = mkCacheKey p2 m) : p1 = p2 := by
  unfold mkCacheKey at h
  exact String.ext (List.append_cancel_right h)

theorem batchKey_inj (folder format : String) (cfg : FormatConfig)
    (procOpts : OptionsMap) (f g : String)
    (h : batchKey folder cfg format procOpts f
       = batchKey folder cfg format procOpts g) : f = g := by
  unfold batchKey fileInput at h
  have h2 := mkCacheKey_path_eq _ _ _ h
  have h3 : (pathJoin folder f).data = (pathJoin folder g).data := by rw [h2]
  rw [pathJoin_data, pathJoin_data] at h3
  have h4 := List.append_cancel_left h3
  exact String.ext (by simpa using h4)

theorem cacheFind_map_self (k : List Char) (v : ConversionResult) :
    ∀ c : List (List Char × ConversionResult),
    c.any (fun p => p.1 = k) = true →
    ((c.map (fun p => if p.1 = k then (k, v) else p)).find?
      (fun p => p.1 = k)).map Prod.snd = some v := by
  intro c
  induction c with
  | nil => simp
  | cons p c ih =>
    intro hany
    by_cases hp : p.1 = k
    · rw [List.map_cons, if_pos hp,
        List.find?_cons_of_pos _ (by simp)]
      simp
    · have hc : c.any (fun p => p.1 = k) = true := by
        rw [List.any_cons, decide_eq_false hp, Bool.false_or] at hany
        exact hany
      rw [List.map_cons, if_neg hp,
        List.find?_cons_of_neg _ (by simpa using hp)]
      exact ih hc

theorem cacheFind_map_ne (k k' : List Char) (v : ConversionResult)
    (hne : k' ≠ k) :
    ∀ c : List (List Char × ConversionResult),
    ((c.map (fun p => if p.1 = k then (k, v) else p)).find?
      (fun p => p.1 = k')).map Prod.snd
      = (c.find? (fun p => p.1 = k')).map Prod.snd := by
  intro c
  induction c with
  | nil => simp
  | cons p c ih =>
    have hkk : ¬ k = k' := Ne.symm hne
    by_cases hp : p.1 = k
    · have hp' : ¬ p.1 = k' := by rw [hp]; exact hkk
      rw [List.map_cons, if_pos hp,
        List.find?_cons_of_neg _ (by simpa using hkk),
        List.find?_cons_of_neg _ (by simpa using hp')]
      exact ih
    · rw [List.map_cons, if_neg hp]
      by_cases hq : p.1 = k'
      · rw [List.find?_cons_of_pos _ (by simpa using hq),
          List.find?_cons_of_pos _ (by simpa using hq)]
      · rw [List.find?_cons_of_neg _ (by simpa using hq),
          List.find?_cons_of_neg _ (by simpa using hq)]
        exact ih

theorem cacheFind_set_self (c : List (List Char × ConversionResult))
    (k : List Char) (v : ConversionResult) :
    cacheFind (cacheSet c k v) k = some v := by
  unfold cacheFind cacheSet
  by_cases hany : c.any (fun p => p.1 = k) = true
  · rw [if_pos hany]
    exact cacheFind_map_self k v c hany
  · rw [if_neg hany]
    have hnone : c.find? (fun p => p.1 = k) = none := by
      rw [List.find?_eq_none]
      intro x hx
      by_contra hxk
      apply hany
      rw [List.any_eq_true]
      exact ⟨x, hx, by simpa using hxk⟩
    rw [List.find?_append, hnone]
    simp

theorem cacheFind_set_ne (c : List (List Char × ConversionResult))
    (k k' : List Char) (v : ConversionResult) (hne : k' ≠ k) :
    cacheFind (cacheSet c k v) k' = cacheFind c k' := by
  unfold cacheFind cacheSet
  by_cases hany : c.any (fun p => p.1 = k) = true
  · rw [if_pos hany]
    exact cacheFind_map_ne k k' v hne c
  · rw [if_neg hany, List.find?_append]
    cases hfind : c.find? (fun p => p.1 = k') with
    | some p => simp
    | none =>
      have hkk : ¬ k = k' := Ne.symm hne
      rw [List.find?_cons_of_neg _ (by simpa using hkk)]
      simp

theorem hasKey_setKey_self (m : OptionsMap) (k : String) (v : OValue) :
    hasKey (setKey m k v) k = true := by
  unfold setKey
  by_cases hany : hasKey m k = true
  · rw [if_pos hany]
    unfold hasKey at hany ⊢
    rw [List.any_eq_true] at hany ⊢
    obtain ⟨p, hp, hpk⟩ := hany
    refine ⟨(k, v), List.mem_map.mpr ⟨p, hp, ?_⟩, by simp⟩
    simp only [decide_eq_true_eq] at hpk
    rw [if_pos hpk]
  · rw [if_neg hany]
    unfold hasKey
    rw [List.any_append]
    simp

theorem hasKey_setKey_of (m : OptionsMap) (k : String) (v : OValue)
    (j : String) (h : hasKey m j = true) :
    hasKey (setKey m k v) j = true := by
  unfold setKey
  by_cases hany : hasKey m k = true
  · rw [if_pos hany]
    unfold hasKey at h ⊢
    rw [List.any_eq_true] at h ⊢
    obtain ⟨p, hp, hpj⟩ := h
    simp only [decide_eq_true_eq] at hpj
    by_cases hpk : p.1 = k
    · refine ⟨(k, v), List.mem_map.mpr ⟨p, hp, by rw [if_pos hpk]⟩, ?_⟩
      simp only [decide_eq_true_eq]
      rw [← hpk, hpj]
    · exact ⟨p, List.mem_map.mpr ⟨p, hp, by rw [if_neg hpk]⟩, by simp [hpj]⟩
  · rw [if_neg hany]
    unfold hasKey at h ⊢
    rw [List.any_append, h, Bool.true_or]

theorem hasKey_mergeSpread_left (b : OptionsMap) :
    ∀ (m : OptionsMap) (j : String), hasKey m j = true →
    hasKey (mergeSpread m b) j = true := by
  induction b with
  | nil => intro m j h; exact h
  | cons p b ih =>
    intro m j h
    exact ih (setKey m p.1 p.2) j (hasKey_setKey_of m p.1 p.2 j h)

theorem hasKey_setKey_false (m : OptionsMap) (k : String) (v : OValue)
    (j : String) (hj : hasKey m j = false) (hk : k ≠ j) :
    hasKey (setKey m k v) j = false := by
  unfold setKey
  by_cases hany : hasKey m k = true
  · rw [if_pos hany]
    unfold hasKey at hj ⊢
    rw [List.any_eq_false] at hj ⊢
    intro q hq
    obtain ⟨p, hp, hpq⟩ := List.mem_map.mp hq
    by_cases hpk : p.1 = k
    · rw [if_pos hpk] at hpq
      simp [← hpq, hk]
    · rw [if_neg hpk] at hpq
      have := hj p hp
      simpa [← hpq] using this
  · rw [if_neg hany]
    unfold hasKey at hj ⊢
    rw [List.any_append, hj, Bool.false_or]
    simp [hk]

theorem hasKey_mergeSpread_false (b : OptionsMap) :
    ∀ (m : OptionsMap) (j : String), hasKey m j = false →
    hasKey b j = false → hasKey (mergeSpread m b) j = false := by
  induction b with
  | nil => intro m j h _; exact h
  | cons p b ih =>
    intro m j h hb
    unfold hasKey at hb
    rw [List.any_cons, Bool.or_eq_false_iff] at hb
    have hpj : p.1 ≠ j := by
      intro he
      simp [he] at hb
    exact ih (setKey m p.1 p.2) j (hasKey_setKey_false m p.1 p.2 j h hpj) hb.2

theorem lookupOpt_eq_none (m : OptionsMap) (k : String)
    (h : hasKey m k = false) : lookupOpt m k = none := by
  unfold lookupOpt
  unfold hasKey at h
  rw [List.any_eq_false] at h
  rw [List.find?_eq_none.mpr h]
  rfl

theorem mergedOptions_remove_false (cfg : FormatConfig) (format : String)
    (procOpts : OptionsMap)
    (hc : hasKey cfg.options "remove" = false)
    (hp : hasKey procOpts "remove" = false) :
    removeRequested (mergedOptions cfg format procOpts) = false := by
  unfold removeRequested mergedOptions
  rw [lookupOpt_eq_none]
  · rfl
  · refine hasKey_mergeSpread_false _ _ _ ?_ hp
    refine hasKey_setKey_false _ _ _ _ ?_ (by decide)
    exact hasKey_setKey_false _ _ _ _ hc (by decide)

theorem mergedOptions_hasKey_format (cfg : FormatConfig) (format : String)
    (procOpts : OptionsMap) :
    hasKey (mergedOptions cfg format procOpts) "format" = true := by
  unfold mergedOptions
  exact hasKey_mergeSpread_left _ _ _ (hasKey_setKey_self _ _ _)

theorem setKey_cons_eq (k0 : String) (v0 : OValue) (tl : OptionsMap)
    (k : String) (v : OValue) :
    ∃ w tl2, setKey ((k0, v0) :: tl) k v = (k0, w) :: tl2 := by
  unfold setKey
  by_cases hany : hasKey ((k0, v0) :: tl) k = true
  · rw [if_pos hany, List.map_cons]
    by_cases hk : k0 = k
    · subst hk
      refine ⟨v, tl.map (fun p => if p.1 = k0 then (k0, v) else p), ?_⟩
      simp
    · refine ⟨v0, tl.map (fun p => if p.1 = k then (k, v) else p), ?_⟩
      simp [hk]
  · rw [if_neg hany, List.cons_append]
    exact ⟨v0, tl ++ [(k, v)], rfl⟩

theorem mergeSpread_cons_eq (b : OptionsMap) :
    ∀ (k0 : String) (v0 : OValue) (tl : OptionsMap),
    ∃ w tl2, mergeSpread ((k0, v0) :: tl) b = (k0, w) :: tl2 := by
  induction b with
  | nil => intro k0 v0 tl; exact ⟨v0, tl, rfl⟩
  | cons p b ih =>
    intro k0 v0 tl
    obtain ⟨w, tl2, hw⟩ := setKey_cons_eq k0 v0 tl p.1 p.2
    obtain ⟨w2, tl3, hw2⟩ := ih k0 w tl2
    refine ⟨w2, tl3, ?_⟩
    unfold mergeSpread at hw2 ⊢
    rw [List.foldl_cons, hw]
    exact hw2

theorem mergedOptions_head (cfg : FormatConfig) (format : String)
    (opts : OptionsMap) (k0 : String) (v0 : OValue) (tl : OptionsMap)
    (h : cfg.options = (k0, v0) :: tl) :
    ∃ w t, mergedOptions cfg format opts = (k0, w) :: t := by
  unfold mergedOptions
  rw [h]
  obtain ⟨w1, t1, h1⟩ := setKey_cons_eq k0 v0 tl "quality" (.num cfg.defaultQuality)
  rw [h1]
  obtain ⟨w2, t2, h2⟩ := setKey_cons_eq k0 w1 t1 "format" (.str format)
  rw [h2]
  exact mergeSpread_cons_eq opts k0 w2 t2

theorem extractKey_serialize (k : String) (v : OValue) (rest : OptionsMap)
    (hq : ('"' : Char) ∉ k.data) :
    extractKey (serializeOpts ((k, v) :: rest)) = k.data := by
  have hall : ∀ c ∈ k.data, (decide (c ≠ '"')) = true := by
    intro c hc
    simp only [decide_eq_true_eq]
    exact fun hceq => hq (hceq ▸ hc)
  cases rest with
  | nil =>
    unfold serializeOpts serializeEntries serializeEntry extractKey
    simp only [List.cons_append, List.append_assoc, List.drop_succ_cons,
      List.drop_zero]
    rw [takeWhile_append_stop _ _ _ _ hall (by decide)]
  | cons p rest =>
    unfold serializeOpts serializeEntries serializeEntry extractKey
    simp only [List.cons_append, List.append_assoc, List.drop_succ_cons,
      List.drop_zero]
    rw [takeWhile_append_stop _ _ _ _ hall (by decide)]

theorem serializeOpts_ne_head (k1 k2 : String) (v1 v2 : OValue)
    (t1 t2 : OptionsMap) (hq1 : ('"' : Char) ∉ k1.data)
    (hq2 : ('"' : Char) ∉ k2.data) (hne : k1.data ≠ k2.data) :
    serializeOpts ((k1, v1) :: t1) ≠ serializeOpts ((k2, v2) :: t2) := by
  intro h
  have e1 := extractKey_serialize k1 v1 t1 hq1
  have e2 := extractKey_serialize k2 v2 t2 hq2
  rw [h, e2] at e1
  exact hne e1.symm

theorem mergedKey_ne_of_heads (input : String) (opts : OptionsMap)
    {c1 c2 : FormatConfig} {f1 f2 : String}
    {k1 : String} {v1 : OValue} {t1 : OptionsMap}
    {k2 : String} {v2 : OValue} {t2 : OptionsMap}
    (h1 : c1.options = (k1, v1) :: t1) (h2 : c2.options = (k2, v2) :: t2)
    (hq1 : ('"' : Char) ∉ k1.data) (hq2 : ('"' : Char) ∉ k2.data)
    (hne : k1.data ≠ k2.data) :
    mkCacheKey input (mergedOptions c1 f1 opts)
      ≠ mkCacheKey input (mergedOptions c2 f2 opts) := by
  obtain ⟨w1, s1, e1⟩ := mergedOptions_head c1 f1 opts k1 v1 t1 h1
  obtain ⟨w2, s2, e2⟩ := mergedOptions_head c2 f2 opts k2 v2 t2 h2
  intro h
  have hs := mkCacheKey_opts_eq _ _ _ h
  rw [e1, e2] at hs
  exact serializeOpts_ne_head k1 k2 w1 w2 s1 s2 hq1 hq2 hne hs

/- Characterization lemmas for processImage and processFile. -/

theorem processImage_hit (env : Env) (st : ProcState) (f o : String)
    (opts : OptionsMap) (r : ConversionResult) (sz : Nat)
    (hinfo : env.fileInfo f = .ok sz)
    (hfind : cacheFind st.cache (mkCacheKey f opts) = some r) :
    processImage env st f o opts =
      { state := { st with skipped := st.skipped + 1 }
        events := [.access f, .statFile f, .statFile f]
        result := .ok r } := by
  simp [processImage, hinfo, hfind]

theorem processImage_fresh_ok (env : Env) (st : ProcState) (f o : String)
    (opts : OptionsMap) (sz : Nat)
    (hinfo : env.fileInfo f = .ok sz)
    (hmiss : cacheFind st.cache (mkCacheKey f opts) = none)
    (henc : env.encodeFail f o = none)
    (hrem : ((lookupOpt opts "remove").map truthy).getD false = false) :
    processImage env st f o opts =
      { state := commit st (mkCacheKey f opts)
          (generateResult f sz (env.outputSize o))
        events := [.access f, .statFile f, .statFile f, .encode f o, .statOut o]
        result := .ok (generateResult f sz (env.outputSize o)) } := by
  simp [processImage, hinfo, hmiss, henc, hrem]

theorem processImage_encode_fail (env : Env) (st : ProcState) (f o : String)
    (opts : OptionsMap) (sz : Nat) (m : String)
    (hinfo : env.fileInfo f = .ok sz)
    (hmiss : cacheFind st.cache (mkCacheKey f opts) = none)
    (henc : env.encodeFail f o = some m) :
    processImage env st f o opts =
      { state := { st with failed := st.failed + 1 }
        events := [.access f, .statFile f, .statFile f, .encode f o]
        result := .error (enhanceError m f) } := by
  simp [processImage, hinfo, hmiss, henc]

theorem processImage_error_failed (env : Env) (st : ProcState) (f o : String)
    (opts : OptionsMap) (e : String)
    (h : (processImage env st f o opts).result = .error e) :
    (processImage env st f o opts).state.failed = st.failed + 1 := by
  cases hinfo : env.fileInfo f with
  | error m => simp [processImage, hinfo]
  | ok sz =>
    cases hfind : cacheFind st.cache (mkCacheKey f opts) with
    | some r => simp [processImage, hinfo, hfind] at h
    | none =>
      cases henc : env.encodeFail f o with
      | some m => simp [processImage, hinfo, hfind, henc]
      | none =>
        cases hrem : ((lookupOpt opts "remove").map truthy).getD false with
        | false => simp [processImage, hinfo, hfind, henc, hrem] at h
        | true =>
          cases hul : env.unlinkErr f with
          | some m => simp [processImage, hinfo, hfind, henc, hrem, hul]
          | none => simp [processImage, hinfo, hfind, henc, hrem, hul] at h

theorem processImage_ok_found (env : Env) (st : ProcState) (f o : String)
    (opts : OptionsMap) (res : ConversionResult)
    (h : (processImage env st f o opts).result = .ok res) :
    (∃ sz, env.fileInfo f = .ok sz) ∧
    cacheFind (processImage env st f o opts).state.cache
      (mkCacheKey f opts) = some res := by
  cases hinfo : env.fileInfo f with
  | error m => simp [processImage, hinfo] at h
  | ok sz =>
    refine ⟨⟨sz, rfl⟩, ?_⟩
    cases hfind : cacheFind st.cache (mkCacheKey f opts) with
    | some r =>
      have he := processImage_hit env st f o opts r sz hinfo hfind
      rw [he]
      rw [he] at h
      simp at h
      subst h
      exact hfind
    | none =>
      cases henc : env.encodeFail f o with
      | some m => simp [processImage, hinfo, hfind, henc] at h
      | none =>
        cases hrem : ((lookupOpt opts "remove").map truthy).getD false with
        | false =>
          have he := processImage_fresh_ok env st f o opts sz hinfo hfind henc hrem
          rw [he] at h ⊢
          simp at h
          subst h
          simp [commit, cacheFind_set_self]
        | true =>
          cases hul : env.unlinkErr f with
          | some m => simp [processImage, hinfo, hfind, henc, hrem, hul] at h
          | none =>
            have h2 : (processImage env st f o opts).state
                = commit st (mkCacheKey f opts)
                    (generateResult f sz (env.outputSize o)) := by
              simp [processImage, hinfo, hfind, henc, hrem, hul]
            have h3 : res = generateResult f sz (env.outputSize o) := by
              have := h
              simp [processImage, hinfo, hfind, henc, hrem, hul] at this
              exact this.symm
            rw [h2, h3]
            simp [commit, cacheFind_set_self]

theorem processImage_ok_failed (env : Env) (st : ProcState) (f o : String)
    (opts : OptionsMap) (res : ConversionResult)
    (h : (processImage env st f o opts).result = .ok res) :
    (processImage env st f o opts).state.failed = st.failed := by
  cases hinfo : env.fileInfo f with
  | error m => simp [processImage, hinfo] at h
  | ok sz =>
    cases hfind : cacheFind st.cache (mkCacheKey f opts) with
    | some r => simp [processImage, hinfo, hfind]
    | none =>
      cases henc : env.encodeFail f o with
      | some m => simp [processImage, hinfo, hfind, henc] at h
      | none =>
        cases hrem : ((lookupOpt opts "remove").map truthy).getD false with
        | false => simp [processImage, hinfo, hfind, henc, hrem, commit]
        | true =>
          cases hul : env.unlinkErr f with
          | some m => simp [processImage, hinfo, hfind, henc, hrem, hul] at h
          | none => simp [processImage, hinfo, hfind, henc, hrem, hul, commit]

theorem processImage_ok_no_unlink (env : Env) (st : ProcState) (f o : String)
    (opts : OptionsMap) (res : ConversionResult)
    (hrm : ((lookupOpt opts "remove").map truthy).getD false = false)
    (h : (processImage env st f o opts).result = .ok res) :
    ∀ p, IOEvent.unlink p ∉ (processImage env st f o opts).events := by
  intro p
  cases hinfo : env.fileInfo f with
  | error m => simp [processImage, hinfo] at h
  | ok sz =>
    cases hfind : cacheFind st.cache (mkCacheKey f opts) with
    | some r => simp [processImage, hinfo, hfind]
    | none =>
      cases henc : env.encodeFail f o with
      | some m => simp [processImage, hinfo, hfind, henc] at h
      | none => simp [processImage, hinfo, hfind, henc, hrm]

theorem validateFormat_ok_lookup (input format : String) (cfg : FormatConfig)
    (h : validateFormat input format = .ok cfg) :
    lookupFmt (toLowerStr format) = some cfg := by
  cases hl : lookupFmt (toLowerStr format) with
  | none =>
    simp only [validateFormat, hl] at h
    exact Except.noConfusion h
  | some c =>
    simp only [validateFormat, hl] at h
    by_cases hc : c.supportedInputs.contains (toLowerStr (extname input)) = true
    · rw [if_pos hc] at h
      injection h with h2
      rw [h2]
    · rw [if_neg hc] at h
      exact Except.noConfusion h

theorem processFile_invalid (env : Env) (st : ProcState) (input : String)
    (outputArg : Option String) (format : String) (procOpts : OptionsMap)
    (m : String) (h : validateFormat input format = .error m) :
    processFile env st input outputArg format procOpts =
      { state := emitStart st, events := [], result := .error m } := by
  simp [processFile, h]

theorem processFile_batch_ok (env : Env) (st : ProcState)
    (input output format : String) (procOpts : OptionsMap)
    (cfg : FormatConfig) (sz : Nat)
    (hval : validateFormat input format = .ok cfg)
    (hinfo : env.fileInfo input = .ok sz)
    (hmiss : cacheFind st.cache
      (mkCacheKey input (mergedOptions cfg format procOpts)) = none)
    (henc : env.encodeFail input output = none)
    (hrem : ((lookupOpt (mergedOptions cfg format procOpts) "remove").map
      truthy).getD false = false) :
    processFile env st input (some output) format procOpts =
      { state := emitComplete (commit (emitStart st)
          (mkCacheKey input (mergedOptions cfg format procOpts))
          (generateResult input sz (env.outputSize output)))
        events := [.mkdir ⟨dirnameChars output.data⟩, .access input,
          .statFile input, .statFile input, .encode input output,
          .statOut output]
        result := .ok (generateResult input sz (env.outputSize output)) } := by
  have hmiss2 : cacheFind (emitStart st).cache
      (mkCacheKey input (mergedOptions cfg format procOpts)) = none := hmiss
  have he := processImage_fresh_ok env (emitStart st) input output
    (mergedOptions cfg format procOpts) sz hinfo hmiss2 henc hrem
  simp [processFile, hval, he]

theorem processFile_batch_fail (env : Env) (st : ProcState)
    (input output format : String) (procOpts : OptionsMap)
    (cfg : FormatConfig) (sz : Nat) (m : String)
    (hval : validateFormat input format = .ok cfg)
    (hinfo : env.fileInfo input = .ok sz)
    (hmiss : cacheFind st.cache
      (mkCacheKey input (mergedOptions cfg format procOpts)) = none)
    (henc : env.encodeFail input output = some m) :
    processFile env st input (some output) format procOpts =
      { state := { emitStart st with failed := (emitStart st).failed + 1 }
        events := [.mkdir ⟨dirnameChars output.data⟩, .access input,
          .statFile input, .statFile input, .encode input output]
        result := .error (enhanceError m input) } := by
  have hmiss2 : cacheFind (emitStart st).cache
      (mkCacheKey input (mergedOptions cfg format procOpts)) = none := hmiss
  have he := processImage_encode_fail env (emitStart st) input output
    (mergedOptions cfg format procOpts) sz m hinfo hmiss2 henc
  simp [processFile, hval, he]

/- processFile is the restriction of the full model processFileM to
environments whose directory creations succeed. -/

theorem processFileM_mkdir_ok (env : EnvM) (st : ProcState) (input : String)
    (outputArg : Option String) (format : String) (procOpts : OptionsMap)
    (hmk : ∀ d, env.mkdirErr d = none) :
    processFileM env st input outputArg format procOpts
      = processFile env.toEnv st input outputArg format procOpts := by
  cases hv : validateFormat input format with
  | error m => simp [processFileM, processFile, hv]
  | ok cfg => simp [processFileM, processFile, hv, hmk]

theorem validateFormat_join_ok (folder f format : String) (cfg : FormatConfig)
    (hfmt : lookupFmt (toLowerStr format) = some cfg)
    (hext : cfg.supportedInputs.contains (toLowerStr (extname f)) = true)
    (hns : ('/' : Char) ∉ f.data) :
    validateFormat (fileInput folder f) format = .ok cfg := by
  unfold validateFormat fileInput
  rw [extname_pathJoin folder f hns, hfmt]
  simp only [hext, if_true]

/- The loop invariant of processFolder, mixed success/failure form: under
the batch preconditions every eligible file yields exactly one result, a
file fails exactly when the codec fails on it, the failure results carry
the thrown message, and the counters advance accordingly. -/

theorem folderLoop_mixed_spec (env : Env) (folder dest format : String)
    (cfg : FormatConfig) (procOpts : OptionsMap) (cb : Bool) (total : Nat)
    (hfmt : lookupFmt (toLowerStr format) = some cfg)
    (hrem : ((lookupOpt (mergedOptions cfg format procOpts) "remove").map
      truthy).getD false = false) :
    ∀ (files : List String) (st : ProcState) (index : Nat),
    (∀ f ∈ files, cfg.supportedInputs.contains (toLowerStr (extname f)) = true) →
    (∀ f ∈ files, ('/' : Char) ∉ f.data) →
    (∀ f ∈ files, isOkB (env.fileInfo (fileInput folder f)) = true) →
    (∀ f ∈ files, cacheFind st.cache (batchKey folder cfg format procOpts f) = none) →
    files.Nodup →
    (folderLoop env folder dest format cfg procOpts cb total st files index).results.length
        = files.length ∧
    (folderLoop env folder dest format cfg procOpts cb total st files index).results.countP
        (fun r => r.success = false) = files.countP (encodeFails env folder dest cfg) ∧
    (folderLoop env folder dest format cfg procOpts cb total st files index).state.failed
        = st.failed + files.countP (encodeFails env folder dest cfg) ∧
    (folderLoop env folder dest format cfg procOpts cb total st files index).state.processed
        = st.processed + (files.length - files.countP (encodeFails env folder dest cfg)) ∧
    (folderLoop env folder dest format cfg procOpts cb total st files index).state.skipped
        = st.skipped ∧
    (∀ r ∈ (folderLoop env folder dest format cfg procOpts cb total st files index).results,
        r.success = false → r.error = some r.message ∧ r.stats = none) := by
  intro files
  induction files with
  | nil =>
    intro st index _ _ _ _ _
    simp [folderLoop]
  | cons f rest ih =>
    intro st index hext hns hinfo hmiss hnd
    have hvf : validateFormat (fileInput folder f) format = .ok cfg :=
      validateFormat_join_ok folder f format cfg hfmt (hext f (by simp))
        (hns f (by simp))
    obtain ⟨sz, hsz⟩ : ∃ sz, env.fileInfo (fileInput folder f) = .ok sz := by
      cases hfi : env.fileInfo (fileInput folder f) with
      | ok sz => exact ⟨sz, rfl⟩
      | error m =>
        have hbad := hinfo f (by simp)
        rw [hfi] at hbad
        simp [isOkB] at hbad
    have hm : cacheFind st.cache
        (mkCacheKey (fileInput folder f) (mergedOptions cfg format procOpts))
        = none := hmiss f (by simp)
    have hnd2 : rest.Nodup := (List.nodup_cons.mp hnd).2
    have hfnr : f ∉ rest := (List.nodup_cons.mp hnd).1
    have hmiss_rest : ∀ (st2 : ProcState), st2.cache = st.cache →
        ∀ g ∈ rest, cacheFind st2.cache (batchKey folder cfg format procOpts g) = none := by
      intro st2 hc g hg
      rw [hc]
      exact hmiss g (by simp [hg])
    cases henc : env.encodeFail (fileInput folder f) (fileOutput dest cfg f) with
    | none =>
      have hef : encodeFails env folder dest cfg f = false := by
        simp [encodeFails, henc]
      have hpf := processFile_batch_ok env st (fileInput folder f)
        (fileOutput dest cfg f) format procOpts cfg sz hvf hsz hm henc hrem
      have hmiss2 : ∀ g ∈ rest,
          cacheFind (emitComplete (commit (emitStart st)
              (mkCacheKey (fileInput folder f) (mergedOptions cfg format procOpts))
              (generateResult (fileInput folder f) sz
                (env.outputSize (fileOutput dest cfg f))))).cache
            (batchKey folder cfg format procOpts g) = none := by
        intro g hg
        have hgne : g ≠ f := fun he => hfnr (he ▸ hg)
        have hkne : batchKey folder cfg format procOpts g
            ≠ batchKey folder cfg format procOpts f :=
          fun hk => hgne (batchKey_inj folder format cfg procOpts g f hk)
        have hkne2 : batchKey folder cfg format procOpts g
            ≠ mkCacheKey (fileInput folder f)
                (mergedOptions cfg format procOpts) := hkne
        show cacheFind (cacheSet st.cache
          (mkCacheKey (fileInput folder f) (mergedOptions cfg format procOpts))
          (generateResult (fileInput folder f) sz
            (env.outputSize (fileOutput dest cfg f))))
          (batchKey folder cfg format procOpts g) = none
        rw [cacheFind_set_ne _ _ _ _ hkne2]
        exact hmiss g (by simp [hg])
      have IH := ih (emitComplete (commit (emitStart st)
          (mkCacheKey (fileInput folder f) (mergedOptions cfg format procOpts))
          (generateResult (fileInput folder f) sz
            (env.outputSize (fileOutput dest cfg f))))) (index + 1)
        (fun g hg => hext g (by simp [hg]))
        (fun g hg => hns g (by simp [hg]))
        (fun g hg => hinfo g (by simp [hg]))
        hmiss2 hnd2
      obtain ⟨ih1, ih2, ih3, ih4, ih5, ih6⟩ := IH
      simp only [folderLoop, hpf]
      have hgen : (generateResult (fileInput folder f) sz
          (env.outputSize (fileOutput dest cfg f))).success = true := rfl
      refine ⟨?_, ?_, ?_, ?_, ?_, ?_⟩
      · simp [ih1]
      · simp [List.countP_cons, hef, hgen]
        simpa using ih2
      · rw [ih3]
        simp [List.countP_cons, hef, emitComplete, commit, emitStart]
      · rw [ih4]
        have hcle := List.countP_le_length
          (p := encodeFails env folder dest cfg) (l := rest)
        simp [List.countP_cons, hef, emitComplete, commit, emitStart]
        omega
      · rw [ih5]
        simp [emitComplete, commit, emitStart]
      · intro r hr hrf
        simp only [List.mem_cons] at hr
        cases hr with
        | inl h =>
          rw [h, hgen] at hrf
          simp at hrf
        | inr h => exact ih6 r h hrf
    | some m =>
      have hef : encodeFails env folder dest cfg f = true := by
        simp [encodeFails, henc]
      have hpf := processFile_batch_fail env st (fileInput folder f)
        (fileOutput dest cfg f) format procOpts cfg sz m hvf hsz hm henc
      have IH := ih { emitStart st with failed := (emitStart st).failed + 1 }
        (index + 1)
        (fun g hg => hext g (by simp [hg]))
        (fun g hg => hns g (by simp [hg]))
        (fun g hg => hinfo g (by simp [hg]))
        (hmiss_rest _ rfl) hnd2
      obtain ⟨ih1, ih2, ih3, ih4, ih5, ih6⟩ := IH
      simp only [folderLoop, hpf]
      refine ⟨?_, ?_, ?_, ?_, ?_, ?_⟩
      · simp [ih1]
      · simp [List.countP_cons, hef, failureResult]
        simpa using ih2
      · rw [ih3]
        simp [List.countP_cons, hef, emitStart]
        try omega
      · rw [ih4]
        have hcle := List.countP_le_length
          (p := encodeFails env folder dest cfg) (l := rest)
        simp [List.countP_cons, hef, emitStart]
        try omega
      · rw [ih5]
        simp [emitStart]
      · intro r hr hrf
        simp only [List.mem_cons] at hr
        cases hr with
        | inl h =>
          rw [h]
          simp [failureResult]
        | inr h => exact ih6 r h hrf

/- The loop invariant of processFolder in the all-success case: progress is
reported once per file with the value of the source expression, and the
per-file processing:start / processing:complete emissions advance the clock
and overwrite the timestamps. -/

theorem folderLoop_success_spec (env : Env) (folder dest format : String)
    (cfg : FormatConfig) (procOpts : OptionsMap) (cb : Bool) (total : Nat)
    (hfmt : lookupFmt (toLowerStr format) = some cfg)
    (hrem : ((lookupOpt (mergedOptions cfg format procOpts) "remove").map
      truthy).getD false = false) :
    ∀ (files : List String) (st : ProcState) (index : Nat),
    (∀ f ∈ files, cfg.supportedInputs.contains (toLowerStr (extname f)) = true) →
    (∀ f ∈ files, ('/' : Char) ∉ f.data) →
    (∀ f ∈ files, isOkB (env.fileInfo (fileInput folder f)) = true) →
    (∀ f ∈ files, cacheFind st.cache (batchKey folder cfg format procOpts f) = none) →
    files.Nodup →
    (∀ f ∈ files, encodeFails env folder dest cfg f = false) →
    (cb = true →
      (folderLoop env folder dest format cfg procOpts cb total st files index).progress.map
          (fun pc => pc.progress)
        = (List.range files.length).map
            (fun i : ℕ => (((index : ℚ) + (i : ℚ) + 1) / (total : ℚ)) * 100)) ∧
    (folderLoop env folder dest format cfg procOpts cb total st files index).state.tick
        = st.tick + 2 * files.length ∧
    (files ≠ [] →
      (folderLoop env folder dest format cfg procOpts cb total st files index).state.startTime
        = some (st.tick + 2 * files.length - 2)) ∧
    (files = [] →
      (folderLoop env folder dest format cfg procOpts cb total st files index).state = st) ∧
    (files ≠ [] →
      (folderLoop env folder dest format cfg procOpts cb total st files index).state.endTime
        = some (st.tick + 2 * files.length - 1)) := by
  intro files
  induction files with
  | nil =>
    intro st index _ _ _ _ _ _
    refine ⟨fun _ => by simp [folderLoop], by simp [folderLoop], ?_, ?_, ?_⟩
    · intro h; exact absurd rfl h
    · intro _; simp [folderLoop]
    · intro h; exact absurd rfl h
  | cons f rest ih =>
    intro st index hext hns hinfo hmiss hnd hok
    have hvf : validateFormat (fileInput folder f) format = .ok cfg :=
      validateFormat_join_ok folder f format cfg hfmt (hext f (by simp))
        (hns f (by simp))
    obtain ⟨sz, hsz⟩ : ∃ sz, env.fileInfo (fileInput folder f) = .ok sz := by
      cases hfi : env.fileInfo (fileInput folder f) with
      | ok sz => exact ⟨sz, rfl⟩
      | error m =>
        have hbad := hinfo f (by simp)
        rw [hfi] at hbad
        simp [isOkB] at hbad
    have hm : cacheFind st.cache
        (mkCacheKey (fileInput folder f) (mergedOptions cfg format procOpts))
        = none := hmiss f (by simp)
    have hnd2 : rest.Nodup := (List.nodup_cons.mp hnd).2
    have hfnr : f ∉ rest := (List.nodup_cons.mp hnd).1
    have henc : env.encodeFail (fileInput folder f) (fileOutput dest cfg f) = none := by
      have h := hok f (by simp)
      unfold encodeFails at h
      cases he : env.encodeFail (fileInput folder f) (fileOutput dest cfg f) with
      | none => rfl
      | some m => rw [he] at h; simp at h
    have hpf := processFile_batch_ok env st (fileInput folder f)
      (fileOutput dest cfg f) format procOpts cfg sz hvf hsz hm henc hrem
    have hmiss2 : ∀ g ∈ rest,
        cacheFind (emitComplete (commit (emitStart st)
            (mkCacheKey (fileInput folder f) (mergedOptions cfg format procOpts))
            (generateResult (fileInput folder f) sz
              (env.outputSize (fileOutput dest cfg f))))).cache
          (batchKey folder cfg format procOpts g) = none := by
      intro g hg
      have hgne : g ≠ f := fun he => hfnr (he ▸ hg)
      have hkne2 : batchKey folder cfg format procOpts g
          ≠ mkCacheKey (fileInput folder f)
              (mergedOptions cfg format procOpts) :=
        fun hk => hgne (batchKey_inj folder format cfg procOpts g f hk)
      show cacheFind (cacheSet st.cache
        (mkCacheKey (fileInput folder f) (mergedOptions cfg format procOpts))
        (generateResult (fileInput folder f) sz
          (env.outputSize (fileOutput dest cfg f))))
        (batchKey folder cfg format procOpts g) = none
      rw [cacheFind_set_ne _ _ _ _ hkne2]
      exact hmiss g (by simp [hg])
    have IH := ih (emitComplete (commit (emitStart st)
        (mkCacheKey (fileInput folder f) (mergedOptions cfg format procOpts))
        (generateResult (fileInput folder f) sz
          (env.outputSize (fileOutput dest cfg f))))) (index + 1)
      (fun g hg => hext g (by simp [hg]))
      (fun g hg => hns g (by simp [hg]))
      (fun g hg => hinfo g (by simp [hg]))
      hmiss2 hnd2
      (fun g hg => hok g (by simp [hg]))
    obtain ⟨ihp, iht, ihs, ihnil, ihe⟩ := IH
    have htick2 : (emitComplete (commit (emitStart st)
        (mkCacheKey (fileInput folder f) (mergedOptions cfg format procOpts))
        (generateResult (fileInput folder f) sz
          (env.outputSize (fileOutput dest cfg f))))).tick = st.tick + 2 := by
      simp [emitComplete, commit, emitStart]
    simp only [folderLoop, hpf]
    refine ⟨?_, ?_, ?_, ?_, ?_⟩
    · intro hcb
      subst hcb
      have hp := ihp rfl
      simp only [List.length_cons, List.range_succ_eq_map, List.map_cons,
        List.map_map, List.map_append, List.singleton_append, if_true]
      rw [hp]
      congr 1
      · push_cast
        ring_nf
      · refine List.map_congr_left ?_
        intro a _
        simp only [Function.comp_apply, Nat.succ_eq_add_one]
        push_cast
        ring_nf
    · rw [iht, htick2, List.length_cons]
      omega
    · intro _
      by_cases hrest : rest = []
      · have hstate := ihnil hrest
        subst hrest
        rw [hstate]
        simp [emitComplete, commit, emitStart]
      · have hs := ihs hrest
        rw [hs, htick2, List.length_cons]
        have harith : st.tick + 2 + 2 * rest.length - 2
            = st.tick + 2 * (rest.length + 1) - 2 := by omega
        rw [harith]
    · intro h
      simp at h
    · intro _
      by_cases hrest : rest = []
      · have hstate := ihnil hrest
        subst hrest
        rw [hstate]
        simp [emitComplete, commit, emitStart]
      · have he := ihe hrest
        rw [he, htick2, List.length_cons]
        have harith : st.tick + 2 + 2 * rest.length - 1
            = st.tick + 2 * (rest.length + 1) - 1 := by omega
        rw [harith]

/- Small registry facts used by the claim theorems. -/

theorem lookupFmt_mem (s : String) (cfg : FormatConfig)
    (h : lookupFmt s = some cfg) : cfg ∈ FORMAT_MAPPINGS.map Prod.snd := by
  unfold lookupFmt at h
  cases hf : FORMAT_MAPPINGS.find? (fun p => p.1 = s) with
  | none => rw [hf] at h; simp at h
  | some p =>
    rw [hf] at h
    have h2 : p.2 = cfg := by simpa using h
    subst h2
    exact List.mem_map.mpr ⟨p, List.mem_of_find?_eq_some hf, rfl⟩

theorem registry_no_remove (cfg : FormatConfig)
    (h : cfg ∈ FORMAT_MAPPINGS.map Prod.snd) :
    hasKey cfg.options "remove" = false := by
  fin_cases h <;> decide

/- Claim theorems. -/

/-- C5 counterexample: the claimed registry invariant — every descriptor's
accepted input extensions exclude the descriptor's own output format — fails
at the jpeg descriptor: its output extension is ".jpg" and its accepted
inputs contain ".jpg" (and ".jpeg"). -/
theorem C5_counterexample :
    ("jpeg", jpegConfig) ∈ FORMAT_MAPPINGS ∧
    jpegConfig.extension = ".jpg" ∧
    jpegConfig.supportedInputs.contains jpegConfig.extension = true := by
  decide

/-- C5 amended: every descriptor of the static format registry except jpeg
excludes its own output extension from its accepted inputs; jpeg alone
accepts its own output extension ".jpg" as input. -/
theorem C5_registry_self_input :
    (FORMAT_MAPPINGS.all (fun p =>
      p.1 == "jpeg" || !(p.2.supportedInputs.contains p.2.extension))) = true ∧
    jpegConfig.supportedInputs.contains jpegConfig.extension = true := by
  decide

/-- C6 counterexample: for a conversion that grows the file by an integral
percentage the savingPercent string is not rendered with one decimal: a
204800-byte input producing a 286720-byte output reports "+40", while the
spec rendering (plus sign, one decimal) is "+40.0" — the grow branch passes
the toFixed string through Math.abs, which re-renders it as a plain number
and drops a trailing dot-zero. -/
theorem C6_counterexample :
    ((generateResult "in/a.png" 204800 286720).stats.map
      (fun s => s.savingPercent)) = some "+40" ∧
    specSavingPercent 204800 286720 = "+40.0" ∧
    ("+40" : String) ≠ "+40.0" := by
  refine ⟨by decide, by decide, by decide⟩

/-- C6 amended: for every successful conversion, savedSize is the exact
integer difference inputSize - outputSize; when the file did not grow the
savingPercent string equals the spec rendering (minus sign, the rounded
absolute percentage with exactly one decimal); when the file grew the code
prefixes a plus sign to the rounded absolute percentage rendered as a plain
JS number, which omits a trailing dot-zero. -/
theorem C6_savingPercent (fp : String) (inputSize outputSize : Nat)
    (hpos : 0 < inputSize) :
    ((generateResult fp inputSize outputSize).stats.map (fun s => s.savedSize))
        = some ((inputSize : Int) - (outputSize : Int)) ∧
    (outputSize ≤ inputSize →
      ((generateResult fp inputSize outputSize).stats.map (fun s => s.savingPercent))
        = some (specSavingPercent inputSize outputSize)) ∧
    (inputSize < outputSize →
      ((generateResult fp inputSize outputSize).stats.map (fun s => s.savingPercent))
        = some ("+" ++ jsAbsNumStr
            (roundDiv (((inputSize : Int) - (outputSize : Int)) * 1000) inputSize))) := by
  refine ⟨by simp [generateResult], ?_, ?_⟩
  · intro hle
    have hnn : (0 : Int) ≤ (inputSize : Int) - (outputSize : Int) := by
      omega
    have habs : ((((inputSize : Int) - (outputSize : Int)).natAbs : Int))
        = (inputSize : Int) - (outputSize : Int) := Int.natAbs_of_nonneg hnn
    simp only [generateResult, specSavingPercent, Option.map_some]
    rw [if_neg (by omega), if_neg (by omega), habs]
    rfl
  · intro hlt
    have hneg : (inputSize : Int) - (outputSize : Int) < 0 := by omega
    simp only [generateResult, Option.map_some]
    rw [if_pos hneg]
    rfl

/-- C6 witness: the spec example — a 204800-byte input yielding a
122880-byte output — satisfies the amended statement, with savedSize
81920 and the spec rendering "-40.0". -/
theorem C6_savingPercent_witness :
    (0 < 204800 ∧
      (((generateResult "in/a.png" 204800 122880).stats.map (fun s => s.savedSize))
          = some ((204800 : Int) - (122880 : Int)) ∧
      (122880 ≤ 204800 →
        ((generateResult "in/a.png" 204800 122880).stats.map (fun s => s.savingPercent))
          = some (specSavingPercent 204800 122880)) ∧
      (204800 < 122880 →
        ((generateResult "in/a.png" 204800 122880).stats.map (fun s => s.savingPercent))
          = some ("+" ++ jsAbsNumStr
              (roundDiv (((204800 : Int) - (122880 : Int)) * 1000) 204800))))) ∧
    specSavingPercent 204800 122880 = "-40.0" ∧
    ((204800 : Int) - (122880 : Int)) = 81920 :=
  ⟨⟨by decide, C6_savingPercent "in/a.png" 204800 122880 (by decide)⟩,
    by decide, by decide⟩

/-- C3 counterexample: two caller option maps holding identical key/value
pairs in opposite insertion orders (a permutation of one another) produce
different cache keys through the merge performed by processFile, because the
key is built from the insertion-ordered JSON serialization — so the two
calls do not hit the same cache entry as the claim states. -/
theorem C3_counterexample :
    optsColoursFirst.Perm optsDitherFirst ∧
    optsColoursFirst ≠ optsDitherFirst ∧
    mkCacheKey "in/a.png" (mergedOptions webpConfig "webp" optsColoursFirst)
      ≠ mkCacheKey "in/a.png" (mergedOptions webpConfig "webp" optsDitherFirst) := by
  refine ⟨by decide, by decide, by decide⟩

/-- C3 amended: the cache key is the insertion-order-sensitive JSON
serialization of the merged options: identical insertion orders always give
the identical key, but maps with identical key/value pairs in different
insertion orders can produce different keys for every input path, and then
miss each other's cache entries. -/
theorem C3_cacheKey_order_dependent (input : String) :
    mkCacheKey input (mergedOptions webpConfig "webp" optsColoursFirst)
      ≠ mkCacheKey input (mergedOptions webpConfig "webp" optsDitherFirst) ∧
    optsColoursFirst.Perm optsDitherFirst := by
  constructor
  · intro h
    have hs := mkCacheKey_opts_eq _ _ _ h
    revert hs
    decide
  · decide

/-- C9: the merged option set always contains a "format" entry, and for two
distinct registered target formats applied to the same input with identical
caller-supplied options the cache keys always differ (each registry entry's
default options begin with a key unique to that format, and serialization
preserves the first key), so the two conversions never collide on one cache
entry. -/
theorem C9_format_in_cache_key (input : String) (opts : OptionsMap)
    (f1 f2 : String) (c1 c2 : FormatConfig)
    (h1 : (f1, c1) ∈ FORMAT_MAPPINGS) (h2 : (f2, c2) ∈ FORMAT_MAPPINGS)
    (hne : f1 ≠ f2) :
    hasKey (mergedOptions c1 f1 opts) "format" = true ∧
    mkCacheKey input (mergedOptions c1 f1 opts)
      ≠ mkCacheKey input (mergedOptions c2 f2 opts) := by
  refine ⟨mergedOptions_hasKey_format c1 f1 opts, ?_⟩
  simp only [FORMAT_MAPPINGS, List.mem_cons, List.not_mem_nil, or_false,
    Prod.mk.injEq] at h1 h2
  rcases h1 with ⟨rfl, rfl⟩ | ⟨rfl, rfl⟩ | ⟨rfl, rfl⟩ | ⟨rfl, rfl⟩ |
    ⟨rfl, rfl⟩ | ⟨rfl, rfl⟩ | ⟨rfl, rfl⟩ <;>
  rcases h2 with ⟨rfl, rfl⟩ | ⟨rfl, rfl⟩ | ⟨rfl, rfl⟩ | ⟨rfl, rfl⟩ |
    ⟨rfl, rfl⟩ | ⟨rfl, rfl⟩ | ⟨rfl, rfl⟩ <;>
  first
  | exact absurd rfl hne
  | exact mergedKey_ne_of_heads input opts rfl rfl (by decide) (by decide)
      (by decide)

/-- C9 witness: jpeg versus png on the same input with the same caller
options gives distinct cache keys, and the merged options carry a format
entry. -/
theorem C9_format_in_cache_key_witness :
    hasKey (mergedOptions jpegConfig "jpeg" [("quality", .num 50)]) "format" = true ∧
    mkCacheKey "in/a.png" (mergedOptions jpegConfig "jpeg" [("quality", .num 50)])
      ≠ mkCacheKey "in/a.png" (mergedOptions pngConfig "png" [("quality", .num 50)]) :=
  C9_format_in_cache_key "in/a.png" [("quality", .num 50)] "jpeg" "png"
    jpegConfig pngConfig (by decide) (by decide) (by decide)

/-- C7 counterexample: when deletion of the original fails after a
successful encode, the conversion does NOT still return a successful
result: the unlink error falls into the catch of #processImage, so the call
throws the enhanced error, increments failed (not processed), and caches
nothing — contradicting the claim that the result stays valid with the
deletion failure surfaced only as a secondary warning. -/
theorem C7_counterexample :
    (processImage envSingle initState "in/a.png" "out/a.webp"
        [("remove", .bool true)]).result
      = .error "Processing failed for in/a.png: EPERM: operation not permitted" ∧
    (processImage envSingle initState "in/a.png" "out/a.webp"
        [("remove", .bool true)]).state.failed = 1 ∧
    (processImage envSingle initState "in/a.png" "out/a.webp"
        [("remove", .bool true)]).state.processed = 0 ∧
    (processImage envSingle initState "in/a.png" "out/a.webp"
        [("remove", .bool true)]).state.cache = [] := by
  refine ⟨by rfl, by decide, by decide, by decide⟩

/-- C7 amended: with the delete-original option set, the input is deleted
only after the output is written (the unlink interaction is the last event,
after the encode and output stat); but a deletion failure aborts the
conversion instead of surfacing as a secondary warning: the call throws the
enhanced unlink error, failed is incremented, the result is not cached and
processed is not incremented.  When the deletion succeeds the conversion
result is returned, cached and counted as processed. -/
theorem C7_delete_original (env : Env) (st : ProcState)
    (filePath outputPath : String) (opts : OptionsMap) (sz : Nat)
    (hinfo : env.fileInfo filePath = .ok sz)
    (hmiss : cacheFind st.cache (mkCacheKey filePath opts) = none)
    (henc : env.encodeFail filePath outputPath = none)
    (hrem : ((lookupOpt opts "remove").map truthy).getD false = true) :
    (processImage env st filePath outputPath opts).events
      = [.access filePath, .statFile filePath, .statFile filePath,
         .encode filePath outputPath, .statOut outputPath, .unlink filePath] ∧
    (∀ m, env.unlinkErr filePath = some m →
      (processImage env st filePath outputPath opts).result
          = .error (enhanceError m filePath) ∧
      (processImage env st filePath outputPath opts).state.failed = st.failed + 1 ∧
      (processImage env st filePath outputPath opts).state.processed = st.processed ∧
      (processImage env st filePath outputPath opts).state.cache = st.cache) ∧
    (env.unlinkErr filePath = none →
      (processImage env st filePath outputPath opts).result
          = .ok (generateResult filePath sz (env.outputSize outputPath)) ∧
      (processImage env st filePath outputPath opts).state.processed
          = st.processed + 1 ∧
      cacheFind (processImage env st filePath outputPath opts).state.cache
          (mkCacheKey filePath opts)
        = some (generateResult filePath sz (env.outputSize outputPath))) := by
  cases hul : env.unlinkErr filePath with
  | some m =>
    refine ⟨by simp [processImage, hinfo, hmiss, henc, hrem, hul], ?_, ?_⟩
    · intro m2 hm2
      injection hm2 with hmm
      subst hmm
      refine ⟨by simp [processImage, hinfo, hmiss, henc, hrem, hul],
        by simp [processImage, hinfo, hmiss, henc, hrem, hul],
        by simp [processImage, hinfo, hmiss, henc, hrem, hul],
        by simp [processImage, hinfo, hmiss, henc, hrem, hul]⟩
    · intro hnone
      simp at hnone
  | none =>
    refine ⟨by simp [processImage, hinfo, hmiss, henc, hrem, hul], ?_, ?_⟩
    · intro m2 hm2
      simp at hm2
    · intro _
      have he : (processImage env st filePath outputPath opts).state
          = commit st (mkCacheKey filePath opts)
              (generateResult filePath sz (env.outputSize outputPath)) := by
        simp [processImage, hinfo, hmiss, henc, hrem, hul]
      refine ⟨by simp [processImage, hinfo, hmiss, henc, hrem, hul], ?_, ?_⟩
      · rw [he]
        simp [commit]
      · rw [he]
        show cacheFind (cacheSet st.cache (mkCacheKey filePath opts)
          (generateResult filePath sz (env.outputSize outputPath)))
          (mkCacheKey filePath opts)
          = some (generateResult filePath sz (env.outputSize outputPath))
        exact cacheFind_set_self _ _ _

/-- C7 witness: a concrete run in which the encode succeeds and the unlink
fails exercises the amended statement. -/
theorem C7_delete_original_witness :
    (processImage envSingle initState "in/a.png" "out/a.webp"
        [("remove", .bool true)]).events
      = [.access "in/a.png", .statFile "in/a.png", .statFile "in/a.png",
         .encode "in/a.png" "out/a.webp", .statOut "out/a.webp",
         .unlink "in/a.png"] ∧
    (∀ m, envSingle.unlinkErr "in/a.png" = some m →
      (processImage envSingle initState "in/a.png" "out/a.webp"
          [("remove", .bool true)]).result
          = .error (enhanceError m "in/a.png") ∧
      (processImage envSingle initState "in/a.png" "out/a.webp"
          [("remove", .bool true)]).state.failed = initState.failed + 1 ∧
      (processImage envSingle initState "in/a.png" "out/a.webp"
          [("remove", .bool true)]).state.processed = initState.processed ∧
      (processImage envSingle initState "in/a.png" "out/a.webp"
          [("remove", .bool true)]).state.cache = initState.cache) ∧
    (envSingle.unlinkErr "in/a.png" = none →
      (processImage envSingle initState "in/a.png" "out/a.webp"
          [("remove", .bool true)]).result
          = .ok (generateResult "in/a.png" 1000
              (envSingle.outputSize "out/a.webp")) ∧
      (processImage envSingle initState "in/a.png" "out/a.webp"
          [("remove", .bool true)]).state.processed = initState.processed + 1 ∧
      cacheFind (processImage envSingle initState "in/a.png" "out/a.webp"
          [("remove", .bool true)]).state.cache
          (mkCacheKey "in/a.png" [("remove", .bool true)])
        = some (generateResult "in/a.png" 1000
            (envSingle.outputSize "out/a.webp"))) :=
  C7_delete_original envSingle initState "in/a.png" "out/a.webp"
    [("remove", .bool true)] 1000 (by rfl) (by rfl) (by rfl) (by decide)

/-- C10: the failed counter is incremented only for errors arising inside
the processing stage.  (1) A convert call failing format validation
(unknown target format or unaccepted input extension) throws before the
processing stage, with no interaction recorded and processed, failed,
skipped, totalSaved and the cache unchanged.  (2) A directory-creation
failure after validation also throws with every counter and the cache
unchanged — only the attempted mkdir is in the trace, and failed is NOT
incremented.  (3) Whenever the failed counter changed at all, it was
incremented by exactly one, and the run had a valid format, a successful
directory creation, and an error thrown inside the processing stage
(the #processImage call: input-file validation, encode, output stat or
delete-original), which the call rethrows.  (4) Conversely, past a valid
format and a successful directory creation, any thrown error increments
failed by exactly one. -/
theorem C10_failed_only_processing_stage (env : EnvM) (st : ProcState)
    (input : String) (outputArg : Option String) (format : String)
    (procOpts : OptionsMap) :
    (∀ m, validateFormat input format = .error m →
      (processFileM env st input outputArg format procOpts).result = .error m ∧
      (processFileM env st input outputArg format procOpts).events = [] ∧
      (processFileM env st input outputArg format procOpts).state.processed = st.processed ∧
      (processFileM env st input outputArg format procOpts).state.failed = st.failed ∧
      (processFileM env st input outputArg format procOpts).state.skipped = st.skipped ∧
      (processFileM env st input outputArg format procOpts).state.totalSaved = st.totalSaved ∧
      (processFileM env st input outputArg format procOpts).state.cache = st.cache) ∧
    (∀ cfg m, validateFormat input format = .ok cfg →
      env.mkdirErr ⟨dirnameChars (outputArg.getD
        (pathJoin ⟨dirnameChars input.data⟩
          (⟨basenameNoExtChars input.data⟩ ++ cfg.extension))).data⟩ = some m →
      (processFileM env st input outputArg format procOpts).result = .error m ∧
      (processFileM env st input outputArg format procOpts).events
        = [.mkdir ⟨dirnameChars (outputArg.getD
            (pathJoin ⟨dirnameChars input.data⟩
              (⟨basenameNoExtChars input.data⟩ ++ cfg.extension))).data⟩] ∧
      (processFileM env st input outputArg format procOpts).state.processed = st.processed ∧
      (processFileM env st input outputArg format procOpts).state.failed = st.failed ∧
      (processFileM env st input outputArg format procOpts).state.skipped = st.skipped ∧
      (processFileM env st input outputArg format procOpts).state.totalSaved = st.totalSaved ∧
      (processFileM env st input outputArg format procOpts).state.cache = st.cache) ∧
    ((processFileM env st input outputArg format procOpts).state.failed ≠ st.failed →
      (processFileM env st input outputArg format procOpts).state.failed = st.failed + 1 ∧
      ∃ cfg e, validateFormat input format = .ok cfg ∧
        env.mkdirErr ⟨dirnameChars (outputArg.getD
          (pathJoin ⟨dirnameChars input.data⟩
            (⟨basenameNoExtChars input.data⟩ ++ cfg.extension))).data⟩ = none ∧
        (processImage env.toEnv (emitStart st) input
          (outputArg.getD (pathJoin ⟨dirnameChars input.data⟩
            (⟨basenameNoExtChars input.data⟩ ++ cfg.extension)))
          (mergedOptions cfg format procOpts)).result = .error e ∧
        (processFileM env st input outputArg format procOpts).result = .error e) ∧
    (∀ cfg e, validateFormat input format = .ok cfg →
      env.mkdirErr ⟨dirnameChars (outputArg.getD
        (pathJoin ⟨dirnameChars input.data⟩
          (⟨basenameNoExtChars input.data⟩ ++ cfg.extension))).data⟩ = none →
      (processFileM env st input outputArg format procOpts).result = .error e →
      (processFileM env st input outputArg format procOpts).state.failed
        = st.failed + 1) := by
  cases hv : validateFormat input format with
  | error m0 =>
    have hred : processFileM env st input outputArg format procOpts
        = { state := emitStart st, events := [], result := .error m0 } := by
      simp [processFileM, hv]
    refine ⟨?_, ?_, ?_, ?_⟩
    · intro m hm
      injection hm with h2
      subst h2
      rw [hred]
      exact ⟨rfl, rfl, rfl, rfl, rfl, rfl, rfl⟩
    · intro cfg m hc _
      exact Except.noConfusion hc
    · intro hne
      rw [hred] at hne
      exact absurd rfl hne
    · intro cfg e hc _ _
      exact Except.noConfusion hc
  | ok cfg0 =>
    cases hmk : env.mkdirErr ⟨dirnameChars (outputArg.getD
        (pathJoin ⟨dirnameChars input.data⟩
          (⟨basenameNoExtChars input.data⟩ ++ cfg0.extension))).data⟩ with
    | some m0 =>
      have hred : processFileM env st input outputArg format procOpts
          = { state := emitStart st
              events := [.mkdir ⟨dirnameChars (outputArg.getD
                (pathJoin ⟨dirnameChars input.data⟩
                  (⟨basenameNoExtChars input.data⟩ ++ cfg0.extension))).data⟩]
              result := .error m0 } := by
        simp [processFileM, hv, hmk]
      refine ⟨?_, ?_, ?_, ?_⟩
      · intro m hm
        exact Except.noConfusion hm
      · intro cfg m hc hm
        injection hc with h2
        subst h2
        rw [hm] at hmk
        injection hmk with h3
        subst h3
        rw [hred]
        exact ⟨rfl, rfl, rfl, rfl, rfl, rfl, rfl⟩
      · intro hne
        rw [hred] at hne
        exact absurd rfl hne
      · intro cfg e hc hm _
        injection hc with h2
        subst h2
        rw [hm] at hmk
        exact Option.noConfusion hmk
    | none =>
      cases hres : (processImage env.toEnv (emitStart st) input
          (outputArg.getD (pathJoin ⟨dirnameChars input.data⟩
            (⟨basenameNoExtChars input.data⟩ ++ cfg0.extension)))
          (mergedOptions cfg0 format procOpts)).result with
      | ok r =>
        have hred : processFileM env st input outputArg format procOpts
            = { state := emitComplete (processImage env.toEnv (emitStart st)
                  input (outputArg.getD (pathJoin ⟨dirnameChars input.data⟩
                    (⟨basenameNoExtChars input.data⟩ ++ cfg0.extension)))
                  (mergedOptions cfg0 format procOpts)).state
                events := .mkdir ⟨dirnameChars (outputArg.getD
                    (pathJoin ⟨dirnameChars input.data⟩
                      (⟨basenameNoExtChars input.data⟩ ++ cfg0.extension))).data⟩
                  :: (processImage env.toEnv (emitStart st) input
                    (outputArg.getD (pathJoin ⟨dirnameChars input.data⟩
                      (⟨basenameNoExtChars input.data⟩ ++ cfg0.extension)))
                    (mergedOptions cfg0 format procOpts)).events
                result := .ok r } := by
          simp [processFileM, hv, hmk, hres]
        refine ⟨?_, ?_, ?_, ?_⟩
        · intro m hm
          exact Except.noConfusion hm
        · intro cfg m hc hm
          injection hc with h2
          subst h2
          rw [hm] at hmk
          exact Option.noConfusion hmk
        · intro hne
          exfalso
          apply hne
          rw [hred]
          exact processImage_ok_failed env.toEnv (emitStart st) input _ _ r hres
        · intro cfg e hc _ herr
          injection hc with h2
          subst h2
          rw [hred] at herr
          exact Except.noConfusion herr
      | error e0 =>
        have hred : processFileM env st input outputArg format procOpts
            = { state := (processImage env.toEnv (emitStart st) input
                  (outputArg.getD (pathJoin ⟨dirnameChars input.data⟩
                    (⟨basenameNoExtChars input.data⟩ ++ cfg0.extension)))
                  (mergedOptions cfg0 format procOpts)).state
                events := .mkdir ⟨dirnameChars (outputArg.getD
                    (pathJoin ⟨dirnameChars input.data⟩
                      (⟨basenameNoExtChars input.data⟩ ++ cfg0.extension))).data⟩
                  :: (processImage env.toEnv (emitStart st) input
                    (outputArg.getD (pathJoin ⟨dirnameChars input.data⟩
                      (⟨basenameNoExtChars input.data⟩ ++ cfg0.extension)))
                    (mergedOptions cfg0 format procOpts)).events
                result := .error e0 } := by
          simp [processFileM, hv, hmk, hres]
        have hfail := processImage_error_failed _ _ _ _ _ _ hres
        refine ⟨?_, ?_, ?_, ?_⟩
        · intro m hm
          exact Except.noConfusion hm
        · intro cfg m hc hm
          injection hc with h2
          subst h2
          rw [hm] at hmk
          exact Option.noConfusion hmk
        · intro _
          refine ⟨?_, cfg0, e0, rfl, hmk, hres, ?_⟩
          · rw [hred]
            exact hfail
          · rw [hred]
        · intro cfg e hc _ _
          injection hc with h2
          subst h2
          rw [hred]
          exact hfail

/-- C10 witness: an unknown target format throws with no interactions and
failed unchanged; a valid format whose output-directory creation fails
throws with failed and the cache unchanged; an input failing file
validation under a valid format and successful mkdir increments failed by
one. -/
theorem C10_failed_only_processing_stage_witness :
    ((processFileM envSingleM initState "in/a.png" none "bmp" []).result
        = .error "Unsupported output format: bmp" ∧
      (processFileM envSingleM initState "in/a.png" none "bmp" []).events = [] ∧
      (processFileM envSingleM initState "in/a.png" none "bmp" []).state.failed
        = initState.failed) ∧
    ((processFileM envSingleM initState "in/a.png" (some "denied/a.webp")
        "webp" []).result = .error "EACCES: permission denied" ∧
      (processFileM envSingleM initState "in/a.png" (some "denied/a.webp")
        "webp" []).state.failed = initState.failed ∧
      (processFileM envSingleM initState "in/a.png" (some "denied/a.webp")
        "webp" []).state.cache = initState.cache) ∧
    (processFileM envSingleM initState "in/missing.png" none "webp"
      []).state.failed = initState.failed + 1 := by
  have h1 := (C10_failed_only_processing_stage envSingleM initState "in/a.png"
    none "bmp" []).1 "Unsupported output format: bmp" (by rfl)
  have h2 := ((C10_failed_only_processing_stage envSingleM initState "in/a.png"
    (some "denied/a.webp") "webp" []).2).1 webpConfig
    "EACCES: permission denied" (by rfl) (by rfl)
  have h3 := (((C10_failed_only_processing_stage envSingleM initState
    "in/missing.png" none "webp" []).2).2).2 webpConfig
    "Processing failed for in/missing.png: Invalid file path: ENOENT"
    (by rfl) (by rfl) (by rfl)
  exact ⟨⟨h1.1, h1.2.1, h1.2.2.2.1⟩, ⟨h2.1, h2.2.2.2.1, h2.2.2.2.2.2.2⟩, h3⟩

theorem processFile_hit_eq (env : Env) (st : ProcState) (input : String)
    (outputArg : Option String) (format : String) (procOpts : OptionsMap)
    (cfg : FormatConfig) (r : ConversionResult) (sz : Nat)
    (hv : validateFormat input format = .ok cfg)
    (hinfo : env.fileInfo input = .ok sz)
    (hfind : cacheFind st.cache
      (mkCacheKey input (mergedOptions cfg format procOpts)) = some r) :
    processFile env st input outputArg format procOpts =
      { state := emitComplete
          { emitStart st with skipped := (emitStart st).skipped + 1 }
        events := [.mkdir ⟨dirnameChars (outputArg.getD
            (pathJoin ⟨dirnameChars input.data⟩
              (⟨basenameNoExtChars input.data⟩ ++ cfg.extension))).data⟩,
          .access input, .statFile input, .statFile input]
        result := .ok r } := by
  have hfind2 : cacheFind (emitStart st).cache
      (mkCacheKey input (mergedOptions cfg format procOpts)) = some r := hfind
  have hh := processImage_hit env (emitStart st) input
    (outputArg.getD (pathJoin ⟨dirnameChars input.data⟩
      (⟨basenameNoExtChars input.data⟩ ++ cfg.extension)))
    (mergedOptions cfg format procOpts) r sz hinfo hfind2
  simp [processFile, hv, hh]

/-- C2 counterexample: a repeated convert with identical arguments is
claimed to perform no new I/O; in fact the second call re-runs the
output-directory mkdir, the input access check and two input stats before
the cache hit — its interaction trace is nonempty (while the result is the
cached one and the codec is not invoked). -/
theorem C2_counterexample :
    (processFile envSingle
        (processFile envSingle initState "in/a.png" (some "out/a.webp")
          "webp" []).state
        "in/a.png" (some "out/a.webp") "webp" []).events
      = [.mkdir "out", .access "in/a.png", .statFile "in/a.png",
         .statFile "in/a.png"] ∧
    (processFile envSingle
        (processFile envSingle initState "in/a.png" (some "out/a.webp")
          "webp" []).state
        "in/a.png" (some "out/a.webp") "webp" []).events ≠ [] ∧
    (processFile envSingle
        (processFile envSingle initState "in/a.png" (some "out/a.webp")
          "webp" []).state
        "in/a.png" (some "out/a.webp") "webp" []).result
      = .ok (generateResult "in/a.png" 1000 400) := by
  refine ⟨by rfl, by decide, by rfl⟩

/-- C2 amended: a second convert call with identical arguments returns the
first call's result unchanged, increments the skipped counter, and invokes
neither the codec nor any output write again; but it does perform I/O: its
trace is exactly the output-directory mkdir, the input access check and two
input stats preceding the cache hit.  Stated for conversions that do not
request deletion of the original, since deleting the input would change
what the second call's file validation sees; under that hypothesis neither
call performs any unlink. -/
theorem C2_cache_idempotent (env : Env) (st : ProcState) (input : String)
    (outputArg : Option String) (format : String) (procOpts : OptionsMap)
    (res : ConversionResult)
    (hpk : hasKey procOpts "remove" = false)
    (h1 : (processFile env st input outputArg format procOpts).result = .ok res) :
    (processFile env (processFile env st input outputArg format procOpts).state
        input outputArg format procOpts).result = .ok res ∧
    (processFile env (processFile env st input outputArg format procOpts).state
        input outputArg format procOpts).state.skipped
      = (processFile env st input outputArg format procOpts).state.skipped + 1 ∧
    (∀ a b, IOEvent.encode a b ∉
      (processFile env (processFile env st input outputArg format procOpts).state
        input outputArg format procOpts).events) ∧
    IOEvent.statFile input ∈
      (processFile env (processFile env st input outputArg format procOpts).state
        input outputArg format procOpts).events ∧
    (processFile env (processFile env st input outputArg format procOpts).state
        input outputArg format procOpts).state.cache
      = (processFile env st input outputArg format procOpts).state.cache ∧
    (processFile env (processFile env st input outputArg format procOpts).state
        input outputArg format procOpts).state.processed
      = (processFile env st input outputArg format procOpts).state.processed ∧
    (∀ p, IOEvent.unlink p ∉
      (processFile env st input outputArg format procOpts).events) ∧
    (∀ p, IOEvent.unlink p ∉
      (processFile env (processFile env st input outputArg format procOpts).state
        input outputArg format procOpts).events) := by
  cases hv : validateFormat input format with
  | error m =>
    rw [processFile_invalid env st input outputArg format procOpts m hv] at h1
    exact Except.noConfusion h1
  | ok cfg =>
    cases hres : (processImage env (emitStart st) input
        (outputArg.getD (pathJoin ⟨dirnameChars input.data⟩
          (⟨basenameNoExtChars input.data⟩ ++ cfg.extension)))
        (mergedOptions cfg format procOpts)).result with
    | error e =>
      have hpf1 : (processFile env st input outputArg format procOpts).result
          = .error e := by
        simp [processFile, hv, hres]
      rw [hpf1] at h1
      exact Except.noConfusion h1
    | ok r =>
      have hpf1 : processFile env st input outputArg format procOpts =
          { state := emitComplete (processImage env (emitStart st) input
              (outputArg.getD (pathJoin ⟨dirnameChars input.data⟩
                (⟨basenameNoExtChars input.data⟩ ++ cfg.extension)))
              (mergedOptions cfg format procOpts)).state
            events := .mkdir ⟨dirnameChars (outputArg.getD
                (pathJoin ⟨dirnameChars input.data⟩
                  (⟨basenameNoExtChars input.data⟩ ++ cfg.extension))).data⟩
              :: (processImage env (emitStart st) input
                (outputArg.getD (pathJoin ⟨dirnameChars input.data⟩
                  (⟨basenameNoExtChars input.data⟩ ++ cfg.extension)))
                (mergedOptions cfg format procOpts)).events
            result := .ok r } := by
        simp [processFile, hv, hres]
      have hr : r = res := by
        have h3 := h1
        rw [hpf1] at h3
        have h4 : Except.ok (ε := String) r = .ok res := h3
        injection h4
      subst hr
      have hfound := processImage_ok_found _ _ _ _ _ _ hres
      obtain ⟨⟨sz, hsz⟩, hcache⟩ := hfound
      have hfound2 : cacheFind
          (processFile env st input outputArg format procOpts).state.cache
          (mkCacheKey input (mergedOptions cfg format procOpts)) = some r := by
        rw [hpf1]
        exact hcache
      have hsecond := processFile_hit_eq env
        (processFile env st input outputArg format procOpts).state input
        outputArg format procOpts cfg r sz hv hsz hfound2
      have hfl := validateFormat_ok_lookup input format cfg hv
      have hrm : removeRequested (mergedOptions cfg format procOpts) = false :=
        mergedOptions_remove_false cfg format procOpts
          (registry_no_remove cfg (lookupFmt_mem _ _ hfl)) hpk
      rw [hsecond]
      refine ⟨rfl, by simp [emitComplete, emitStart], ?_, by simp, ?_, ?_,
        ?_, ?_⟩
      · intro a b
        simp
      · simp [emitComplete, emitStart]
      · simp [emitComplete, emitStart]
      · intro p hp
        rw [hpf1] at hp
        simp only [List.mem_cons] at hp
        rcases hp with hc | hc
        · exact IOEvent.noConfusion hc
        · exact processImage_ok_no_unlink _ _ _ _ _ _ hrm hres p hc
      · intro p
        simp

/-- C2 witness: a concrete first conversion followed by an identical call
exercises the amended statement. -/
theorem C2_cache_idempotent_witness :
    (processFile envSingle
        (processFile envSingle initState "in/a.png" (some "out/a.webp")
          "webp" []).state
        "in/a.png" (some "out/a.webp") "webp" []).result
      = .ok (generateResult "in/a.png" 1000 400) ∧
    (processFile envSingle
        (processFile envSingle initState "in/a.png" (some "out/a.webp")
          "webp" []).state
        "in/a.png" (some "out/a.webp") "webp" []).state.skipped
      = (processFile envSingle initState "in/a.png" (some "out/a.webp")
          "webp" []).state.skipped + 1 ∧
    (∀ a b, IOEvent.encode a b ∉
      (processFile envSingle
        (processFile envSingle initState "in/a.png" (some "out/a.webp")
          "webp" []).state
        "in/a.png" (some "out/a.webp") "webp" []).events) ∧
    IOEvent.statFile "in/a.png" ∈
      (processFile envSingle
        (processFile envSingle initState "in/a.png" (some "out/a.webp")
          "webp" []).state
        "in/a.png" (some "out/a.webp") "webp" []).events ∧
    (processFile envSingle
        (processFile envSingle initState "in/a.png" (some "out/a.webp")
          "webp" []).state
        "in/a.png" (some "out/a.webp") "webp" []).state.cache
      = (processFile envSingle initState "in/a.png" (some "out/a.webp")
          "webp" []).state.cache ∧
    (processFile envSingle
        (processFile envSingle initState "in/a.png" (some "out/a.webp")
          "webp" []).state
        "in/a.png" (some "out/a.webp") "webp" []).state.processed
      = (processFile envSingle initState "in/a.png" (some "out/a.webp")
          "webp" []).state.processed ∧
    (∀ p, IOEvent.unlink p ∉
      (processFile envSingle initState "in/a.png" (some "out/a.webp")
        "webp" []).events) ∧
    (∀ p, IOEvent.unlink p ∉
      (processFile envSingle
        (processFile envSingle initState "in/a.png" (some "out/a.webp")
          "webp" []).state
        "in/a.png" (some "out/a.webp") "webp" []).events) :=
  C2_cache_idempotent envSingle initState "in/a.png" (some "out/a.webp")
    "webp" [] (generateResult "in/a.png" 1000 400) (by decide) (by rfl)

/-- C1: over a folder batch, the failure of a single file's conversion does
not abort the batch: with N eligible files of which exactly one fails at
the codec, processFolder still returns ok with exactly N results, exactly
one of them has success false and carries the thrown message as both
message and error, the failed counter advances by exactly one (so it equals
1 after a run from the initial state), the other N-1 files are processed,
and none is skipped. -/
theorem C1_partial_failure (env : Env) (st : ProcState)
    (folder dest format : String) (procOpts : OptionsMap) (cb : Bool)
    (cfg : FormatConfig)
    (hfmt : lookupFmt (toLowerStr format) = some cfg)
    (hrem : ((lookupOpt (mergedOptions cfg format procOpts) "remove").map
      truthy).getD false = false)
    (hns : ∀ f ∈ eligibleFiles env folder cfg, ('/' : Char) ∉ f.data)
    (hinfo : ∀ f ∈ eligibleFiles env folder cfg,
      isOkB (env.fileInfo (fileInput folder f)) = true)
    (hmiss : ∀ f ∈ eligibleFiles env folder cfg,
      cacheFind st.cache (batchKey folder cfg format procOpts f) = none)
    (hnd : (eligibleFiles env folder cfg).Nodup)
    (hone : (eligibleFiles env folder cfg).countP
      (encodeFails env folder dest cfg) = 1) :
    ∃ rs, (processFolder env st folder dest format procOpts cb).result = .ok rs ∧
      rs.length = (eligibleFiles env folder cfg).length ∧
      rs.countP (fun r => r.success = false) = 1 ∧
      (∀ r ∈ rs, r.success = false → r.error = some r.message) ∧
      (processFolder env st folder dest format procOpts cb).state.failed
        = st.failed + 1 ∧
      (processFolder env st folder dest format procOpts cb).state.processed
        = st.processed + ((eligibleFiles env folder cfg).length - 1) ∧
      (processFolder env st folder dest format procOpts cb).state.skipped
        = st.skipped := by
  have hext : ∀ f ∈ eligibleFiles env folder cfg,
      cfg.supportedInputs.contains (toLowerStr (extname f)) = true := by
    intro f hf
    exact (List.mem_filter.mp hf).2
  have hmiss2 : ∀ f ∈ eligibleFiles env folder cfg,
      cacheFind (emitStart st).cache (batchKey folder cfg format procOpts f)
        = none := hmiss
  obtain ⟨m1, m2, m3, m4, m5, m6⟩ := folderLoop_mixed_spec env folder dest
    format cfg procOpts cb (eligibleFiles env folder cfg).length hfmt hrem
    (eligibleFiles env folder cfg) (emitStart st) 0 hext hns hinfo hmiss2 hnd
  have hresult : (processFolder env st folder dest format procOpts cb).result
      = .ok (folderLoop env folder dest format cfg procOpts cb
          (eligibleFiles env folder cfg).length (emitStart st)
          (eligibleFiles env folder cfg) 0).results := by
    simp [processFolder, hfmt]
  have hstate : (processFolder env st folder dest format procOpts cb).state
      = emitComplete (folderLoop env folder dest format cfg procOpts cb
          (eligibleFiles env folder cfg).length (emitStart st)
          (eligibleFiles env folder cfg) 0).state := by
    simp [processFolder, hfmt]
  refine ⟨_, hresult, m1, ?_, ?_, ?_, ?_, ?_⟩
  · rw [m2, hone]
  · intro r hr hrf
    exact (m6 r hr hrf).1
  · rw [hstate]
    have : (emitComplete (folderLoop env folder dest format cfg procOpts cb
        (eligibleFiles env folder cfg).length (emitStart st)
        (eligibleFiles env folder cfg) 0).state).failed
        = (folderLoop env folder dest format cfg procOpts cb
        (eligibleFiles env folder cfg).length (emitStart st)
        (eligibleFiles env folder cfg) 0).state.failed := rfl
    rw [this, m3, hone]
    rfl
  · rw [hstate]
    have : (emitComplete (folderLoop env folder dest format cfg procOpts cb
        (eligibleFiles env folder cfg).length (emitStart st)
        (eligibleFiles env folder cfg) 0).state).processed
        = (folderLoop env folder dest format cfg procOpts cb
        (eligibleFiles env folder cfg).length (emitStart st)
        (eligibleFiles env folder cfg) 0).state.processed := rfl
    rw [this, m4, hone]
    rfl
  · rw [hstate]
    have : (emitComplete (folderLoop env folder dest format cfg procOpts cb
        (eligibleFiles env folder cfg).length (emitStart st)
        (eligibleFiles env folder cfg) 0).state).skipped
        = (folderLoop env folder dest format cfg procOpts cb
        (eligibleFiles env folder cfg).length (emitStart st)
        (eligibleFiles env folder cfg) 0).state.skipped := rfl
    rw [this, m5]
    rfl

/-- C1 witness: a folder of three eligible files where exactly the middle
one fails at the codec (plus one ineligible text file), from the initial
state: three results, one failure, failed equals 1. -/
theorem C1_partial_failure_witness :
    ∃ rs, (processFolder envBatch initState "in" "out" "webp" [] true).result
        = .ok rs ∧
      rs.length = (eligibleFiles envBatch "in" webpConfig).length ∧
      rs.countP (fun r => r.success = false) = 1 ∧
      (∀ r ∈ rs, r.success = false → r.error = some r.message) ∧
      (processFolder envBatch initState "in" "out" "webp" [] true).state.failed
        = initState.failed + 1 ∧
      (processFolder envBatch initState "in" "out" "webp" [] true).state.processed
        = initState.processed + ((eligibleFiles envBatch "in" webpConfig).length - 1) ∧
      (processFolder envBatch initState "in" "out" "webp" [] true).state.skipped
        = initState.skipped :=
  C1_partial_failure envBatch initState "in" "out" "webp" [] true webpConfig
    (by rfl) (by decide) (by decide) (by decide) (by decide) (by decide)
    (by decide)

/-- C4 counterexample: over a batch of three eligible files of which the
second fails at the codec, a supplied progress callback is invoked only
twice — not after each of the three files, as the claim states. -/
theorem C4_counterexample :
    (eligibleFiles envBatch "in" webpConfig).length = 3 ∧
    (processFolder envBatch initState "in" "out" "webp" [] true).progress.length
      = 2 := by
  refine ⟨by decide, by decide⟩

/-- C4 amended: the progress callback is invoked once per SUCCESSFUL file
(failed files produce no callback), with progress (index+1)/total*100; over
an all-success batch the reported values are the full sequence
(i+1)/N*100 for i below N, strictly increasing, and the last one is
exactly 100. -/
theorem C4_progress_on_success (env : Env) (st : ProcState)
    (folder dest format : String) (procOpts : OptionsMap) (cfg : FormatConfig)
    (hfmt : lookupFmt (toLowerStr format) = some cfg)
    (hrem : ((lookupOpt (mergedOptions cfg format procOpts) "remove").map
      truthy).getD false = false)
    (hns : ∀ f ∈ eligibleFiles env folder cfg, ('/' : Char) ∉ f.data)
    (hinfo : ∀ f ∈ eligibleFiles env folder cfg,
      isOkB (env.fileInfo (fileInput folder f)) = true)
    (hmiss : ∀ f ∈ eligibleFiles env folder cfg,
      cacheFind st.cache (batchKey folder cfg format procOpts f) = none)
    (hnd : (eligibleFiles env folder cfg).Nodup)
    (hok : ∀ f ∈ eligibleFiles env folder cfg,
      encodeFails env folder dest cfg f = false)
    (hne : eligibleFiles env folder cfg ≠ []) :
    ((processFolder env st folder dest format procOpts true).progress.map
        (fun pc => pc.progress))
      = (List.range (eligibleFiles env folder cfg).length).map
          (fun i : ℕ => (((i : ℚ) + 1)
            / ((eligibleFiles env folder cfg).length : ℚ)) * 100) ∧
    (processFolder env st folder dest format procOpts true).progress.length
      = (eligibleFiles env folder cfg).length ∧
    ((processFolder env st folder dest format procOpts true).progress.map
        (fun pc => pc.progress)).Pairwise (· < ·) ∧
    ((processFolder env st folder dest format procOpts true).progress.map
        (fun pc => pc.progress)).getLast? = some 100 := by
  have hext : ∀ f ∈ eligibleFiles env folder cfg,
      cfg.supportedInputs.contains (toLowerStr (extname f)) = true := by
    intro f hf
    exact (List.mem_filter.mp hf).2
  have hmiss2 : ∀ f ∈ eligibleFiles env folder cfg,
      cacheFind (emitStart st).cache (batchKey folder cfg format procOpts f)
        = none := hmiss
  obtain ⟨ihp, iht, ihs, ihnil, ihe⟩ := folderLoop_success_spec env folder dest
    format cfg procOpts true (eligibleFiles env folder cfg).length hfmt hrem
    (eligibleFiles env folder cfg) (emitStart st) 0 hext hns hinfo hmiss2 hnd hok
  have hNpos : 0 < (eligibleFiles env folder cfg).length :=
    List.length_pos.mpr hne
  have hprog : (processFolder env st folder dest format procOpts true).progress
      = (folderLoop env folder dest format cfg procOpts true
          (eligibleFiles env folder cfg).length (emitStart st)
          (eligibleFiles env folder cfg) 0).progress := by
    simp [processFolder, hfmt]
  have hvals : ((processFolder env st folder dest format procOpts
      true).progress.map (fun pc => pc.progress))
      = (List.range (eligibleFiles env folder cfg).length).map
          (fun i : ℕ => (((i : ℚ) + 1)
            / ((eligibleFiles env folder cfg).length : ℚ)) * 100) := by
    rw [hprog, ihp rfl]
    refine List.map_congr_left ?_
    intro a _
    push_cast
    ring_nf
  refine ⟨hvals, ?_, ?_, ?_⟩
  · have hl := congrArg List.length hvals
    rw [List.length_map, List.length_map, List.length_range] at hl
    exact hl
  · rw [hvals]
    refine List.Pairwise.map _ ?_
      (List.pairwise_lt_range (eligibleFiles env folder cfg).length)
    intro a b hab
    have hN : (0 : ℚ) < ((eligibleFiles env folder cfg).length : ℚ) := by
      exact_mod_cast hNpos
    have h1 : ((a : ℚ) + 1) < ((b : ℚ) + 1) := by
      have : (a : ℚ) < (b : ℚ) := by exact_mod_cast hab
      linarith
    have h2 := (div_lt_div_iff_of_pos_right hN).mpr h1
    exact mul_lt_mul_of_pos_right h2 (by norm_num)
  · rw [hvals]
    obtain ⟨n, hn⟩ : ∃ n, (eligibleFiles env folder cfg).length = n + 1 :=
      ⟨(eligibleFiles env folder cfg).length - 1, by omega⟩
    rw [hn, List.range_succ, List.map_append]
    simp only [List.map_cons, List.map_nil, List.getLast?_concat,
      Option.some.injEq]
    push_cast
    rw [div_self (by positivity)]
    norm_num

/-- C4 witness: a two-file all-success batch reports progress 50 then 100,
strictly increasing, ending at exactly 100, once per file. -/
theorem C4_progress_on_success_witness :
    ((processFolder envTwo initState "in" "out" "webp" [] true).progress.map
        (fun pc => pc.progress))
      = (List.range (eligibleFiles envTwo "in" webpConfig).length).map
          (fun i : ℕ => (((i : ℚ) + 1)
            / ((eligibleFiles envTwo "in" webpConfig).length : ℚ)) * 100) ∧
    (processFolder envTwo initState "in" "out" "webp" [] true).progress.length
      = (eligibleFiles envTwo "in" webpConfig).length ∧
    ((processFolder envTwo initState "in" "out" "webp" [] true).progress.map
        (fun pc => pc.progress)).Pairwise (· < ·) ∧
    ((processFolder envTwo initState "in" "out" "webp" [] true).progress.map
        (fun pc => pc.progress)).getLast? = some 100 :=
  C4_progress_on_success envTwo initState "in" "out" "webp" [] webpConfig
    (by rfl) (by decide) (by decide) (by decide) (by decide) (by decide)
    (by decide) (by decide)

/-- C8 counterexample: after a two-file batch from a fresh processor
(whose batch-boundary processing:start fired at logical time 0), the stored
startTime is 3 — the second file's per-file processing:start emission — not
the batch boundary time: processFile fires the processing:start and
processing:complete events on every per-file call inside the batch,
overwriting the timestamps. -/
theorem C8_counterexample :
    (processFolder envTwo initState "in" "out" "webp" [] false).state.startTime
      = some 3 ∧
    (processFolder envTwo initState "in" "out" "webp" [] false).state.startTime
      ≠ some initState.tick := by
  refine ⟨by decide, by decide⟩

/-- C8 amended: the start and end timestamps are not set only at
orchestration boundaries: every per-file processFile call inside a batch
emits processing:start and processing:complete as well.  After an
all-success batch of N eligible files starting at logical time t, startTime
holds the last file's per-file start (t + 2N - 1), not the batch-boundary
emission at time t, and endTime holds the batch-completion emission
(t + 2N + 1); so the derived processingTime measures from the last file's
start to batch completion. -/
theorem C8_timestamps_per_file (env : Env) (st : ProcState)
    (folder dest format : String) (procOpts : OptionsMap) (cb : Bool)
    (cfg : FormatConfig)
    (hfmt : lookupFmt (toLowerStr format) = some cfg)
    (hrem : ((lookupOpt (mergedOptions cfg format procOpts) "remove").map
      truthy).getD false = false)
    (hns : ∀ f ∈ eligibleFiles env folder cfg, ('/' : Char) ∉ f.data)
    (hinfo : ∀ f ∈ eligibleFiles env folder cfg,
      isOkB (env.fileInfo (fileInput folder f)) = true)
    (hmiss : ∀ f ∈ eligibleFiles env folder cfg,
      cacheFind st.cache (batchKey folder cfg format procOpts f) = none)
    (hnd : (eligibleFiles env folder cfg).Nodup)
    (hok : ∀ f ∈ eligibleFiles env folder cfg,
      encodeFails env folder dest cfg f = false)
    (hne : eligibleFiles env folder cfg ≠ []) :
    (processFolder env st folder dest format procOpts cb).state.startTime
      = some (st.tick + 2 * (eligibleFiles env folder cfg).length - 1) ∧
    (processFolder env st folder dest format procOpts cb).state.endTime
      = some (st.tick + 2 * (eligibleFiles env folder cfg).length + 1) ∧
    st.tick < st.tick + 2 * (eligibleFiles env folder cfg).length - 1 := by
  have hext : ∀ f ∈ eligibleFiles env folder cfg,
      cfg.supportedInputs.contains (toLowerStr (extname f)) = true := by
    intro f hf
    exact (List.mem_filter.mp hf).2
  have hmiss2 : ∀ f ∈ eligibleFiles env folder cfg,
      cacheFind (emitStart st).cache (batchKey folder cfg format procOpts f)
        = none := hmiss
  obtain ⟨ihp, iht, ihs, ihnil, ihe⟩ := folderLoop_success_spec env folder dest
    format cfg procOpts cb (eligibleFiles env folder cfg).length hfmt hrem
    (eligibleFiles env folder cfg) (emitStart st) 0 hext hns hinfo hmiss2 hnd hok
  have hNpos : 0 < (eligibleFiles env folder cfg).length :=
    List.length_pos.mpr hne
  have hstate : (processFolder env st folder dest format procOpts cb).state
      = emitComplete (folderLoop env folder dest format cfg procOpts cb
          (eligibleFiles env folder cfg).length (emitStart st)
          (eligibleFiles env folder cfg) 0).state := by
    simp [processFolder, hfmt]
  refine ⟨?_, ?_, by omega⟩
  · rw [hstate]
    have hpres : (emitComplete (folderLoop env folder dest format cfg procOpts
        cb (eligibleFiles env folder cfg).length (emitStart st)
        (eligibleFiles env folder cfg) 0).state).startTime
        = (folderLoop env folder dest format cfg procOpts cb
        (eligibleFiles env folder cfg).length (emitStart st)
        (eligibleFiles env folder cfg) 0).state.startTime := rfl
    rw [hpres, ihs hne]
    have : (emitStart st).tick + 2 * (eligibleFiles env folder cfg).length - 2
        = st.tick + 2 * (eligibleFiles env folder cfg).length - 1 := by
      simp only [emitStart]
      omega
    rw [this]
  · rw [hstate]
    have hend : (emitComplete (folderLoop env folder dest format cfg procOpts
        cb (eligibleFiles env folder cfg).length (emitStart st)
        (eligibleFiles env folder cfg) 0).state).endTime
        = some (folderLoop env folder dest format cfg procOpts cb
        (eligibleFiles env folder cfg).length (emitStart st)
        (eligibleFiles env folder cfg) 0).state.tick := rfl
    rw [hend, iht]
    have : (emitStart st).tick + 2 * (eligibleFiles env folder cfg).length
        = st.tick + 2 * (eligibleFiles env folder cfg).length + 1 := by
      simp only [emitStart]
      omega
    rw [this]

/-- C8 witness: the two-file batch from the initial state has startTime 3
and endTime 5, matching the amended formulas with t = 0 and N = 2. -/
theorem C8_timestamps_per_file_witness :
    (processFolder envTwo initState "in" "out" "webp" [] false).state.startTime
      = some (initState.tick + 2 * (eligibleFiles envTwo "in" webpConfig).length - 1) ∧
    (processFolder envTwo initState "in" "out" "webp" [] false).state.endTime
      = some (initState.tick + 2 * (eligibleFiles envTwo "in" webpConfig).length + 1) ∧
    initState.tick < initState.tick
      + 2 * (eligibleFiles envTwo "in" webpConfig).length - 1 :=
  C8_timestamps_per_file envTwo initState "in" "out" "webp" [] false webpConfig
    (by rfl) (by decide) (by decide) (by decide) (by decide) (by decide)
    (by decide) (by decide)

end Crushify
